import Mathlib

/-!
Verification of the shellcheck-experiment / survival-kernel repository.

The Rust sources are shallowly embedded below:
* shell sources are modelled as `List Char` (the analysed scripts are ASCII,
  so character positions coincide with the byte offsets used by the Rust code);
* `f64` weights and signal magnitudes are modelled as `ℚ`;
* UUID v5 region identifiers are computed by a faithful SHA-1 implementation,
  machine words being naturals reduced modulo `2 ^ 32`;
* fallible Rust functions return `Except String _`.
-/

namespace LatinExp

set_option maxRecDepth 100000

/-! ## SHA-1 and UUID v5 (the `uuid` crate's `Uuid::new_v5`) -/

/-- 32-bit left rotation; words are naturals below `2 ^ 32`. -/
def rotl32 (n x : Nat) : Nat :=
  ((x <<< n) ||| (x >>> (32 - n))) % 4294967296

/-- SHA-1 round constant for round `i`. -/
def sha1K (i : Nat) : Nat :=
  if i < 20 then 0x5A827999
  else if i < 40 then 0x6ED9EBA1
  else if i < 60 then 0x8F1BBCDC
  else 0xCA62C1D6

/-- SHA-1 round function for round `i`. -/
def sha1F (i b c d : Nat) : Nat :=
  if i < 20 then (b &&& c) ||| ((0xFFFFFFFF ^^^ b) &&& d)
  else if i < 40 then b ^^^ c ^^^ d
  else if i < 60 then (b &&& c) ||| (b &&& d) ||| (c &&& d)
  else b ^^^ c ^^^ d

/-- Pack big-endian bytes into 32-bit words, four at a time. -/
def bytesToWords : List Nat → List Nat
  | b0 :: b1 :: b2 :: b3 :: rest =>
      ((b0 <<< 24) ||| (b1 <<< 16) ||| (b2 <<< 8) ||| b3) :: bytesToWords rest
  | _ => []

/-- Extend the 16 chunk words by `n` further schedule words. -/
def sha1Extend (acc : List Nat) : Nat → List Nat
  | 0 => acc
  | n + 1 =>
      let l := acc.length
      let w := rotl32 1 ((acc.getD (l - 3) 0) ^^^ (acc.getD (l - 8) 0) ^^^
        (acc.getD (l - 14) 0) ^^^ (acc.getD (l - 16) 0))
      sha1Extend (acc ++ [w]) n

/-- One SHA-1 round: state `(a, b, c, d, e)` updated with round index and word. -/
def sha1Step (st : Nat × Nat × Nat × Nat × Nat) (iw : Nat × Nat) :
    Nat × Nat × Nat × Nat × Nat :=
  let (a, b, c, d, e) := st
  let (i, w) := iw
  let temp := (rotl32 5 a + sha1F i b c d + e + sha1K i + w) % 4294967296
  (temp, a, rotl32 30 b, c, d)

/-- Process one 64-byte chunk, updating the running hash state. -/
def sha1Chunk (h : Nat × Nat × Nat × Nat × Nat) (chunk : List Nat) :
    Nat × Nat × Nat × Nat × Nat :=
  let ws := sha1Extend (bytesToWords chunk) 64
  let (a, b, c, d, e) := ws.enum.foldl sha1Step h
  let (h0, h1, h2, h3, h4) := h
  ((h0 + a) % 4294967296, (h1 + b) % 4294967296, (h2 + c) % 4294967296,
    (h3 + d) % 4294967296, (h4 + e) % 4294967296)

/-- Merkle–Damgård padding: `0x80`, zeros, then the 64-bit big-endian bit length. -/
def sha1Pad (msg : List Nat) : List Nat :=
  let len := msg.length
  let z := (119 - (len % 64)) % 64
  msg ++ [0x80] ++ List.replicate z 0 ++
    (List.range 8).map (fun i => ((len * 8) >>> (8 * (7 - i))) % 256)

/-- Fold the hash state over all 64-byte chunks (fuel-indexed, one unit per chunk). -/
def sha1Process (fuel : Nat) (h : Nat × Nat × Nat × Nat × Nat) (rest : List Nat) :
    Nat × Nat × Nat × Nat × Nat :=
  match fuel, rest with
  | 0, _ => h
  | _, [] => h
  | f + 1, l => sha1Process f (sha1Chunk h (l.take 64)) (l.drop 64)

/-- Split a 32-bit word into four big-endian bytes. -/
def wordBytes (w : Nat) : List Nat :=
  [(w >>> 24) % 256, (w >>> 16) % 256, (w >>> 8) % 256, w % 256]

/-- The 20-byte SHA-1 digest of a byte sequence. -/
def sha1Digest (msg : List Nat) : List Nat :=
  let padded := sha1Pad msg
  let (h0, h1, h2, h3, h4) := sha1Process padded.length
    (0x67452301, 0xEFCDAB89, 0x98BADCFE, 0x10325476, 0xC3D2E1F0) padded
  wordBytes h0 ++ wordBytes h1 ++ wordBytes h2 ++ wordBytes h3 ++ wordBytes h4

/-- UTF-8 encoding of a character (`str::as_bytes` in the Rust code). -/
def utf8Bytes (c : Char) : List Nat :=
  let n := c.toNat
  if n < 0x80 then [n]
  else if n < 0x800 then [0xC0 ||| (n >>> 6), 0x80 ||| (n &&& 0x3F)]
  else if n < 0x10000 then
    [0xE0 ||| (n >>> 12), 0x80 ||| ((n >>> 6) &&& 0x3F), 0x80 ||| (n &&& 0x3F)]
  else
    [0xF0 ||| (n >>> 18), 0x80 ||| ((n >>> 12) &&& 0x3F),
      0x80 ||| ((n >>> 6) &&& 0x3F), 0x80 ||| (n &&& 0x3F)]

/-- UTF-8 bytes of a string. -/
def strBytes (s : String) : List Nat :=
  (s.toList.map utf8Bytes).flatten

/-- Big-endian byte list read as one natural number. -/
def beBytesToNat (bs : List Nat) : Nat :=
  bs.foldl (fun acc b => acc * 256 + b) 0

/-- The sixteen UUID v5 bytes: truncated SHA-1 of namespace ++ name with the
version nibble set to 5 and the RFC 4122 variant bits set. -/
def uuidV5Bytes (ns : List Nat) (name : List Nat) : List Nat :=
  let d := (sha1Digest (ns ++ name)).take 16
  (d.set 6 (((d.getD 6 0) &&& 0x0F) ||| 0x50)).set 8
    (((d.getD 8 0) &&& 0x3F) ||| 0x80)

/-- A region identifier: the 128-bit UUID value as a natural number. -/
abbrev RegionId := Nat

/-- Namespace UUID for generating deterministic region IDs
(`REGION_NAMESPACE` in artifact.rs). -/
def REGION_NAMESPACE : List Nat :=
  [0x6b, 0xa7, 0xb8, 0x10, 0x9d, 0xad, 0x11, 0xd1,
   0x80, 0xb4, 0x00, 0xc0, 0x4f, 0xd4, 0x30, 0xc8]

/-- The deterministic region id of artifact.rs:
`Uuid::new_v5(&REGION_NAMESPACE, format!("{}:{}", path, name).as_bytes())`. -/
def regionId (path name : String) : RegionId :=
  beBytesToNat (uuidV5Bytes REGION_NAMESPACE (strBytes (path ++ ":" ++ name)))

/-! ## Signals and the pressure engine (pressure.rs) -/

/-- `Signals = HashMap<String, f64>`: a finite map from signal names to magnitudes,
modelled as an association list with unique keys and first-match lookup. -/
abbrev Signals := List (String × ℚ)

/-- `signals.get(name).copied().unwrap_or(0.0)`. -/
def getSignal (signals : Signals) (name : String) : ℚ :=
  (List.lookup name signals).getD 0

/-- Weights for different shellcheck severity levels. -/
structure ShellcheckWeights where
  error : ℚ
  warning : ℚ
  info : ℚ
  style : ℚ

/-- `ShellcheckWeights::default`: error 4.0, warning 2.0, info 1.0, style 0.5. -/
def ShellcheckWeights.default : ShellcheckWeights :=
  { error := 4, warning := 2, info := 1, style := 1/2 }

/-- Calculates pressure from shellcheck signals. -/
structure ShellcheckPressure where
  weights : ShellcheckWeights
  activation_threshold : ℚ

/-- `ShellcheckPressure::new`: default weights, threshold 2.0. -/
def ShellcheckPressure.new : ShellcheckPressure :=
  { weights := ShellcheckWeights.default, activation_threshold := 2 }

/-- `ShellcheckPressure::with_weights`. -/
def ShellcheckPressure.with_weights (weights : ShellcheckWeights) : ShellcheckPressure :=
  { weights := weights, activation_threshold := 2 }

/-- `ShellcheckPressure::with_threshold`. -/
def ShellcheckPressure.with_threshold (self : ShellcheckPressure) (threshold : ℚ) :
    ShellcheckPressure :=
  { self with activation_threshold := threshold }

/-- `ShellcheckPressure::calculate`. -/
def ShellcheckPressure.calculate (self : ShellcheckPressure) (signals : Signals) : ℚ :=
  let error_count := getSignal signals "error_count"
  let warning_count := getSignal signals "warning_count"
  let info_count := getSignal signals "info_count"
  let style_count := getSignal signals "style_count"
  error_count * self.weights.error
    + warning_count * self.weights.warning
    + info_count * self.weights.info
    + style_count * self.weights.style

/-- `ShellcheckPressure::is_active`: pressure meets or exceeds the threshold. -/
def ShellcheckPressure.is_active (self : ShellcheckPressure) (signals : Signals) : Bool :=
  decide (self.activation_threshold ≤ self.calculate signals)

/-- Modelled from the spec: the activation predicate's axis-support clause,
"at least one axis contributes nonzero pressure" — for the four shellcheck
severity axes, some `value · weight` is nonzero.  Stated from the spec's words
for comparison with the code's `is_active`. -/
def specAxisSupport (p : ShellcheckPressure) (s : Signals) : Prop :=
  getSignal s "error_count" * p.weights.error ≠ 0 ∨
  getSignal s "warning_count" * p.weights.warning ≠ 0 ∨
  getSignal s "info_count" * p.weights.info ≠ 0 ∨
  getSignal s "style_count" * p.weights.style ≠ 0

instance (p : ShellcheckPressure) (s : Signals) : Decidable (specAxisSupport p s) := by
  unfold specAxisSupport; infer_instance

/-! ## Shellcheck sensor (sensors.rs) -/

/-- Rust `str::lines().count()`: 0 for the empty string, otherwise the number of
newline characters plus one more unless the text ends with a newline. -/
def linesCount (s : List Char) : Nat :=
  if s = [] then 0
  else s.count '\n' + (if s.getLast? = some '\n' then 0 else 1)

/-- A single shellcheck issue (sensors.rs `ShellcheckIssue`). -/
structure ShellcheckIssue where
  line : Nat
  column : Nat
  end_line : Nat
  end_column : Nat
  level : String
  code : Nat
  message : String

/-- One step of the severity-counting loop of `ShellcheckSensor::measure`:
the accumulator is `(error_count, warning_count, info_count, style_count)`. -/
def countStep (acc : ℚ × ℚ × ℚ × ℚ) (issue : ShellcheckIssue) : ℚ × ℚ × ℚ × ℚ :=
  if issue.level = "error" then (acc.1 + 1, acc.2.1, acc.2.2.1, acc.2.2.2)
  else if issue.level = "warning" then (acc.1, acc.2.1 + 1, acc.2.2.1, acc.2.2.2)
  else if issue.level = "info" then (acc.1, acc.2.1, acc.2.2.1 + 1, acc.2.2.2)
  else if issue.level = "style" then (acc.1, acc.2.1, acc.2.2.1, acc.2.2.2 + 1)
  else acc

/-- The severity-counting loop of `ShellcheckSensor::measure`. -/
def countIssues (issues : List ShellcheckIssue) : ℚ × ℚ × ℚ × ℚ :=
  issues.foldl countStep (0, 0, 0, 0)

/-- `ShellcheckSensor::measure`, with the parsed output of the shellcheck
subprocess supplied as the `issues` argument (the subprocess itself is I/O and
outside the embedding); `content` is the measured region's content. -/
def shellcheckMeasure (issues : List ShellcheckIssue) (content : List Char) : Signals :=
  let counts := countIssues issues
  let error_count := counts.1
  let warning_count := counts.2.1
  let info_count := counts.2.2.1
  let style_count := counts.2.2.2
  let line_count : ℚ := ((linesCount content).max 1 : Nat)
  let total_issues := error_count + warning_count + info_count + style_count
  let issue_density := total_issues / line_count
  [("error_count", error_count), ("warning_count", warning_count),
   ("info_count", info_count), ("style_count", style_count),
   ("issue_density", issue_density), ("total_issues", total_issues)]

/-! ## Sensor actor (survival-kernel actors/sensor_actor.rs) -/

/-- A JSON value as used in region metadata (only strings and numbers occur). -/
inductive JsonVal where
  | str : String → JsonVal
  | num : Nat → JsonVal
deriving DecidableEq

/-- A read-only region snapshot (survival-kernel `RegionView`). -/
structure RegionView where
  id : RegionId
  kind : String
  content : List Char
  metadata : List (String × JsonVal)

/-- The `Sensor` trait: a name and a fallible measurement on a snapshot. -/
structure Sensor where
  name : String
  measure : RegionView → Except String Signals

/-- `MeasureRegion` request message (fields as used by the sensor actor). -/
structure MeasureRegion where
  correlation_id : Nat
  region_id : RegionId
  region_view : RegionView

/-- `MeasurementResult` response message. -/
structure MeasurementResult where
  correlation_id : Nat
  region_id : RegionId
  sensor_name : String
  signals : Signals

/-- Actor state for SensorActor. -/
structure SensorActorState where
  sensor : Option Sensor
  coordinator : Option String

/-- Actor wrapper for a `Sensor` implementation. -/
structure SensorActor where
  sensor : Sensor
  coordinator : String

/-- The state installed by `SensorActor::spawn` before starting the actor. -/
def SensorActor.spawnState (self : SensorActor) : SensorActorState :=
  { sensor := some self.sensor, coordinator := some self.coordinator }

/-- The `act_on::<MeasureRegion>` handler of `SensorActor::spawn`; the returned
list is the sequence of `MeasurementResult` messages sent to the coordinator
while handling one request (errors are logged and send nothing). -/
def handleMeasureRegion (st : SensorActorState) (msg : MeasureRegion) :
    List MeasurementResult :=
  match st.sensor with
  | none => []
  | some sensor =>
    match st.coordinator with
    | none => []
    | some _ =>
      match sensor.measure msg.region_view with
      | .ok signals =>
          [{ correlation_id := msg.correlation_id, region_id := msg.region_id,
             sensor_name := sensor.name, signals := signals }]
      | .error _ => []

/-! ## Per-tick LLM-call accounting (experiment.rs `run_pressure_field`) -/

/-- Metrics collected during an experiment run (experiment.rs `ExperimentMetrics`). -/
structure ExperimentMetrics where
  total_ticks : Nat
  llm_calls : Nat
  patches_applied : Nat
  patches_rejected : Nat
  initial_pressure : ℚ
  final_pressure : ℚ
  pressure_reduction : ℚ
  llm_efficiency : ℚ
  wall_time_secs : ℚ
  pressure_history : List ℚ
  llm_calls_history : List Nat

/-- `ExperimentMetrics::default`. -/
def ExperimentMetrics.default : ExperimentMetrics :=
  { total_ticks := 0, llm_calls := 0, patches_applied := 0, patches_rejected := 0,
    initial_pressure := 0, final_pressure := 0, pressure_reduction := 0,
    llm_efficiency := 0, wall_time_secs := 0, pressure_history := [],
    llm_calls_history := [] }

/-- The per-tick LLM-call accounting of `run_pressure_field` (experiment.rs
lines 455-458): `llm_calls_this_tick = config.agent_count` is recorded for the
tick, independent of how many proposal requests the tick actually issued. -/
def recordTickLlmCalls (metrics : ExperimentMetrics) (agent_count : Nat) :
    ExperimentMetrics :=
  let llm_calls_this_tick := agent_count
  { metrics with
      llm_calls := metrics.llm_calls + llm_calls_this_tick,
      llm_calls_history := metrics.llm_calls_history ++ [llm_calls_this_tick] }

/-! ## Shell artifact parsing (artifact.rs)

Sources are `List Char` (the scripts are ASCII, so character positions coincide
with the Rust byte offsets).  The function-header regex
`(?m)^(?:function\s+)?([a-zA-Z_][a-zA-Z0-9_]*)\s*\(\s*\)\s*\{` is embedded as a
deterministic matcher: the optional `function`-keyword branch is tried first, and
because the word, whitespace and punctuation character classes are disjoint, the
regex engine's maximal munch with leftmost-first alternation never needs further
backtracking. -/

/-- Start character of the capture group: `[a-zA-Z_]`. -/
def isWordStart (c : Char) : Bool := c.isAlpha || c = '_'

/-- Continuation character of the capture group: `[a-zA-Z0-9_]`. -/
def isWordChar (c : Char) : Bool := c.isAlphanum || c = '_'

/-- Whitespace as matched by the regex's `\s` (ASCII part). -/
def isWs (c : Char) : Bool :=
  c = ' ' || c = '\t' || c = '\n' || c = '\r' || c = '\x0b' || c = '\x0c'

/-- Length of the longest prefix whose characters satisfy `p` (maximal munch). -/
def takeWhileCount (p : Char → Bool) : List Char → Nat
  | [] => 0
  | c :: t => if p c then takeWhileCount p t + 1 else 0

/-- Does `t` start with the literal `lit`? -/
def matchLit : List Char → List Char → Bool
  | [], _ => true
  | _ :: _, [] => false
  | l :: ls, c :: cs => l = c && matchLit ls cs

/-- Match `([a-zA-Z_][a-zA-Z0-9_]*)\s*\(\s*\)\s*\{` at the head of `t`, returning
the captured name and the number of characters consumed. -/
def identAfter (t : List Char) : Option (String × Nat) :=
  match t with
  | [] => none
  | c :: _ =>
    if isWordStart c then
      let k := takeWhileCount isWordChar t
      let name := String.mk (t.take k)
      let t1 := t.drop k
      let w1 := takeWhileCount isWs t1
      match t1.drop w1 with
      | '(' :: t2 =>
        let w2 := takeWhileCount isWs t2
        match t2.drop w2 with
        | ')' :: t3 =>
          let w3 := takeWhileCount isWs t3
          match t3.drop w3 with
          | '{' :: _ => some (name, k + w1 + 1 + w2 + 1 + w3 + 1)
          | _ => none
        | _ => none
      | _ => none
    else none

/-- Match the full header regex at the head of `t`: the greedy optional
`(?:function\s+)?` branch first, falling back to the bare identifier branch. -/
def headerMatchAt (t : List Char) : Option (String × Nat) :=
  if matchLit "function".toList t then
    let t0 := t.drop 8
    let w := takeWhileCount isWs t0
    if 0 < w then
      match identAfter (t0.drop w) with
      | some (name, len) => some (name, 8 + w + len)
      | none => identAfter t
    else identAfter t
  else identAfter t

/-- The `(?m)^` anchor: position 0 or just after a newline. -/
def lineStartB (s : List Char) (p : Nat) : Bool :=
  p == 0 || s.get? (p - 1) == some '\n'

/-- A run of whitespace characters at indices `[a, b)` of `t`. -/
def wsRun (t : List Char) (a b : Nat) : Prop :=
  ∀ i, a ≤ i → i < b → ∃ c, t.get? i = some c ∧ isWs c = true

/-- A run of word characters at indices `[a, b)` of `t`. -/
def wordRun (t : List Char) (a b : Nat) : Prop :=
  ∀ i, a ≤ i → i < b → ∃ c, t.get? i = some c ∧ isWordChar c = true

/-- Declarative characterisation of a successful `identAfter` match at the head
of `t`: a maximal word run (the captured name), optional whitespace, `(`,
whitespace, `)`, whitespace, `{`.  All referenced indices are below `len`. -/
def PlainD (t : List Char) (n : String) (len : Nat) : Prop :=
  ∃ k w1 w2 w3,
    0 < k ∧
    (∃ c, t.get? 0 = some c ∧ isWordStart c = true) ∧
    wordRun t 0 k ∧
    (∀ c, t.get? k = some c → isWordChar c = false) ∧
    n = String.mk (t.take k) ∧
    wsRun t k (k + w1) ∧
    t.get? (k + w1) = some '(' ∧
    wsRun t (k + w1 + 1) (k + w1 + 1 + w2) ∧
    t.get? (k + w1 + 1 + w2) = some ')' ∧
    wsRun t (k + w1 + 2 + w2) (k + w1 + 2 + w2 + w3) ∧
    t.get? (k + w1 + 2 + w2 + w3) = some '{' ∧
    len = k + w1 + w2 + w3 + 3

/-- Declarative characterisation of the `function`-keyword branch of the header
regex: the literal keyword, at least one whitespace, then a plain header. -/
def PrefixD (t : List Char) (n : String) (len : Nat) : Prop :=
  ∃ w0 len2,
    0 < w0 ∧
    (∀ i, i < 8 → t.get? i = "function".toList.get? i) ∧
    wsRun t 8 (8 + w0) ∧
    PlainD (t.drop (8 + w0)) n len2 ∧
    len = 8 + w0 + len2

/-- Declarative characterisation of a header match: one of the two branches
(they are mutually exclusive). -/
def HeaderD (t : List Char) (n : String) (len : Nat) : Prop :=
  PrefixD t n len ∨ PlainD t n len

/-- The scan of `captures_iter`: all non-overlapping matches
`(name, start, matchEnd)` from position `q` on, each match starting at a line
start, the scan resuming at each match's end.  `fuel` only bounds the recursion;
every step advances the position. -/
def scanFromF (s : List Char) : Nat → Nat → List (String × Nat × Nat)
  | 0, _ => []
  | fuel + 1, q =>
    if s.length ≤ q then []
    else
      match (if lineStartB s q then headerMatchAt (s.drop q) else none) with
      | some (name, len) => (name, q, q + len) :: scanFromF s fuel (q + len)
      | none => scanFromF s fuel (q + 1)

/-- All regex matches of the source, in scan order. -/
def scanMatches (s : List Char) : List (String × Nat × Nat) :=
  scanFromF s (s.length + 1) 0

/-- The string-literal toggling step of `ShellArtifact::find_matching_brace`:
entering or leaving a quoted string on an unescaped quote character. -/
def braceToggle (s : List Char) (i : Nat) (c : Char) (in_string : Bool)
    (string_char : Char) : Bool × Char :=
  if (c == '"' || c == '\'') && (i == 0 || !(s.get? (i - 1) == some '\\')) then
    if !in_string then (true, c)
    else if c == string_char then (false, string_char)
    else (in_string, string_char)
  else (in_string, string_char)

/-- The loop of `ShellArtifact::find_matching_brace` proper: quote-aware brace
counting from index `i` with current `depth` and string state. -/
def braceLoop (s : List Char) (start : Nat) :
    Nat → Nat → Int → Bool → Char → Except String Nat
  | 0, _, _, _, _ => .error ("Unmatched brace starting at position " ++ toString start)
  | fuel + 1, i, depth, in_string, string_char =>
    match s.get? i with
    | none => .error ("Unmatched brace starting at position " ++ toString start)
    | some c =>
      let toggled := braceToggle s i c in_string string_char
      if !toggled.1 then
        if c == '{' then braceLoop s start fuel (i + 1) (depth + 1) toggled.1 toggled.2
        else if c == '}' then
          if depth - 1 == 0 then .ok (i + 1)
          else braceLoop s start fuel (i + 1) (depth - 1) toggled.1 toggled.2
        else braceLoop s start fuel (i + 1) depth toggled.1 toggled.2
      else braceLoop s start fuel (i + 1) depth toggled.1 toggled.2

/-- `ShellArtifact::find_matching_brace`. -/
def findMatchingBrace (s : List Char) (start : Nat) : Except String Nat :=
  braceLoop s start (s.length + 1) start 0 false '"'

/-- A parsed shell function region (`ShellRegion`); `stop` is the Rust field
`end` (`end` is a Lean keyword). -/
structure ShellRegion where
  name : String
  start : Nat
  stop : Nat
  start_line : Nat
  end_line : Nat
  kind : String
deriving DecidableEq

/-- `HashMap::insert`: replace any existing binding of the key (the binding list
keeps first-match lookup semantics, so consing the fresh binding in front and
dropping stale ones is extensionally `HashMap::insert`). -/
def insertRegion (m : List (RegionId × ShellRegion)) (k : RegionId) (v : ShellRegion) :
    List (RegionId × ShellRegion) :=
  (k, v) :: m.filter (fun kv => kv.1 != k)

/-- The `ShellRegion` recorded for a regex match `t = (name, start, matchEnd)`
whose matching brace search returned `stop`: line numbers are 1-indexed counts
of the source prefix. -/
def regionOfMatch (s : List Char) (t : String × Nat × Nat) (stop : Nat) : ShellRegion :=
  { name := t.1, start := t.2.1, stop := stop,
    start_line := linesCount (s.take t.2.1) + 1,
    end_line := linesCount (s.take stop) + 1,
    kind := "function" }

/-- The loop body of `parse_functions`: for each regex match find the matching
brace, compute line numbers, derive the deterministic region id, and record the
region in the map and the order list. -/
def buildRegions (path : String) (s : List Char) :
    List (String × Nat × Nat) → List (RegionId × ShellRegion) × List RegionId →
    Except String (List (RegionId × ShellRegion) × List RegionId)
  | [], acc => .ok acc
  | t :: rest, (m, order) =>
    match findMatchingBrace s t.2.1 with
    | .error e => .error e
    | .ok stop =>
      let id := regionId path t.1
      buildRegions path s rest (insertRegion m id (regionOfMatch s t stop), order ++ [id])

/-- `ShellArtifact::parse_functions`. -/
def parseFunctions (path : String) (s : List Char) :
    Except String (List (RegionId × ShellRegion) × List RegionId) :=
  buildRegions path s (scanMatches s) ([], [])

/-- Artifact implementation for shell scripts (`ShellArtifact`). -/
structure ShellArtifact where
  path : String
  source : List Char
  regions : List (RegionId × ShellRegion)
  region_order : List RegionId
deriving DecidableEq

/-- `ShellArtifact::from_source`. -/
def ShellArtifact.from_source (path : String) (source : List Char) :
    Except String ShellArtifact :=
  match parseFunctions path source with
  | .error e => .error e
  | .ok (regions, region_order) =>
    .ok { path := path, source := source, regions := regions,
          region_order := region_order }

/-- `Artifact::region_ids` for `ShellArtifact`. -/
def ShellArtifact.region_ids (self : ShellArtifact) : List RegionId :=
  self.region_order

/-- `Artifact::read_region` for `ShellArtifact`. -/
def ShellArtifact.read_region (self : ShellArtifact) (id : RegionId) :
    Except String RegionView :=
  match List.lookup id self.regions with
  | none => .error ("Region not found: " ++ toString id)
  | some region =>
    let content := (self.source.drop region.start).take (region.stop - region.start)
    .ok { id := id, kind := region.kind, content := content,
          metadata := [("name", .str region.name), ("start_line", .num region.start_line),
                       ("end_line", .num region.end_line)] }

/-- Patch operations (survival-kernel `PatchOp`). -/
inductive PatchOp where
  | Replace : List Char → PatchOp
  | Delete : PatchOp
  | InsertAfter : List Char → PatchOp
deriving DecidableEq

/-- A patch (survival-kernel `Patch`); only `region` and `op` are read by
`apply_patch`. -/
structure Patch where
  region : RegionId
  op : PatchOp
  rationale : String
  expected_delta : List (String × ℚ)

/-- `ShellArtifact::apply_patch` on `&mut self`: the pair is the Rust return
value together with the post-call state of `self`; the early `?`/`ok_or_else`
returns leave `self` untouched, exactly as in the Rust method, because the field
assignments only happen after the re-parse succeeds. -/
def ShellArtifact.apply_patch (self : ShellArtifact) (patch : Patch) :
    Except String Unit × ShellArtifact :=
  match List.lookup patch.region self.regions with
  | none => (.error ("Region not found: " ++ toString patch.region), self)
  | some region =>
    let new_content :=
      match patch.op with
      | .Replace content => content
      | .Delete => []
      | .InsertAfter content =>
          (self.source.drop region.start).take (region.stop - region.start)
            ++ '\n' :: content
    let new_source := self.source.take region.start ++ new_content
      ++ self.source.drop region.stop
    match parseFunctions self.path new_source with
    | .error e => (.error e, self)
    | .ok (regions, region_order) =>
      (.ok (), { self with
                  source := new_source
                  regions := regions
                  region_order := region_order })

/-- `Artifact::source` for `ShellArtifact`. -/
def ShellArtifact.sourceText (self : ShellArtifact) : Option (List Char) :=
  some self.source

/-- Well-formedness invariant of a `ShellArtifact`: its regions and order list
are the parse of its source (established by `from_source` and re-established by
every successful `apply_patch`). -/
def Wf (a : ShellArtifact) : Prop :=
  parseFunctions a.path a.source = .ok (a.regions, a.region_order)

/-- The last regex match whose derived region id is `id` — the parse occurrence
whose region survives in the map after all `HashMap::insert` overwrites. -/
def lastMatchFor (path : String) (ms : List (String × Nat × Nat)) (id : RegionId) :
    Option (String × Nat × Nat) :=
  (ms.filter (fun t => regionId path t.1 == id)).getLast?

/-! ### Concrete fixtures used by the witnesses -/

/-- `regionId "test.sh" "greet"`, precomputed. -/
def greetId : RegionId := 37751354645404549126847962705408090710

/-- `regionId "test.sh" "f"`, precomputed. -/
def fId : RegionId := 60943132595131628546274734940723774326

/-- `regionId "test.sh" "g"`, precomputed. -/
def gId : RegionId := 90363689516346794738403108746913169695

/-- One-function script. -/
def srcGreet : List Char := "greet() \x7b\n:\n\x7d\n".toList

/-- The parsed artifact of `srcGreet`. -/
def artGreet : ShellArtifact :=
  ⟨"test.sh", srcGreet, [(greetId, ⟨"greet", 0, 13, 1, 4, "function"⟩)], [greetId]⟩

/-- Another one-function script. -/
def srcF : List Char := "f() \x7b\n:\n\x7d\n".toList

/-- The parsed artifact of `srcF`. -/
def artF : ShellArtifact :=
  ⟨"test.sh", srcF, [(fId, ⟨"f", 0, 9, 1, 4, "function"⟩)], [fId]⟩

/-- A script defining the same function name `f` twice. -/
def srcDup : List Char := "f() \x7b\n:\n\x7d\nf() \x7b\n;\n\x7d\n".toList

/-- A script with function `g` nested inside function `f`. -/
def srcNested : List Char := "f() \x7b\ng() \x7b\n:\n\x7d\n\x7d\n".toList

/-- The parsed artifact of `srcNested`: two regions, `g`'s span nested inside
`f`'s span. -/
def artNested : ShellArtifact :=
  ⟨"test.sh", srcNested,
   [(gId, ⟨"g", 6, 15, 2, 5, "function"⟩), (fId, ⟨"f", 0, 17, 1, 6, "function"⟩)],
   [fId, gId]⟩

/-- A patch flattening the nested fixture: replace region `f` of `artNested`
with a body that no longer defines `g`. -/
def flattenPatch : Patch := ⟨fId, .Replace "f() \x7b\n:\n\x7d".toList, "flatten", []⟩

/-- A script with two top-level functions whose spans are disjoint. -/
def srcTwo : List Char := "f() \x7b\n:\n\x7d\ng() \x7b\n:\n\x7d\n".toList

/-- The parsed artifact of `srcTwo`. -/
def artTwo : ShellArtifact :=
  ⟨"test.sh", srcTwo,
   [(gId, ⟨"g", 10, 19, 4, 7, "function"⟩), (fId, ⟨"f", 0, 9, 1, 4, "function"⟩)],
   [fId, gId]⟩

/-- A patch rewriting only region `f` of `artTwo`. -/
def tweakPatch : Patch := ⟨fId, .Replace "f() \x7b\n;\n\x7d".toList, "tweak", []⟩

/-! ## Theorems: pressure engine, sensor, actor, metrics -/

/-- Claim C1: for every signal map `s`, `ShellcheckPressure::calculate` with the
default weights equals `4·s[error_count] + 2·s[warning_count] + 1·s[info_count]
+ 0.5·s[style_count]`, and a signal name absent from `s` contributes `0`. -/
theorem C1_calculate_default (s : Signals) :
    ShellcheckPressure.new.calculate s =
        4 * getSignal s "error_count" + 2 * getSignal s "warning_count"
          + 1 * getSignal s "info_count" + (1 / 2) * getSignal s "style_count"
      ∧ ∀ name, List.lookup name s = none → getSignal s name = 0 := by
  constructor
  · simp only [ShellcheckPressure.calculate, ShellcheckPressure.new,
      ShellcheckWeights.default]
    ring
  · intro name h
    simp [getSignal, h]

/-- Witness for C1: a concrete signal map in which `error_count` is absent and
contributes `0`. -/
theorem C1_calculate_default_witness :
    getSignal ([("warning_count", 3)] : Signals) "error_count" = 0 :=
  (C1_calculate_default [("warning_count", 3)]).2 "error_count" rfl

/-- Claim C2 is false as stated: with activation threshold `0` (reachable through
`with_threshold`) and an empty signal map, `is_active` returns true although no
axis contributes nonzero pressure, so the claimed equivalence fails. -/
theorem C2_is_active_counterexample :
    ¬ ((ShellcheckPressure.new.with_threshold 0).is_active [] = true ↔
        ((ShellcheckPressure.new.with_threshold 0).activation_threshold ≤
            (ShellcheckPressure.new.with_threshold 0).calculate [] ∧
          specAxisSupport (ShellcheckPressure.new.with_threshold 0) [])) := by
  intro hiff
  have hth : (ShellcheckPressure.new.with_threshold 0).activation_threshold = 0 := rfl
  have hcalc : (ShellcheckPressure.new.with_threshold 0).calculate [] = 0 := by
    simp [ShellcheckPressure.calculate, getSignal]
  have hact : (ShellcheckPressure.new.with_threshold 0).is_active [] = true := by
    rw [ShellcheckPressure.is_active, hcalc, hth]
    simp
  have hsupp := (hiff.mp hact).2
  rw [specAxisSupport] at hsupp
  simp [getSignal] at hsupp

/-- Claim C2 amended: whenever the activation threshold is positive (as with the
default threshold 2.0), `is_active s` is true iff the computed pressure is at
least the activation threshold and at least one axis contributes nonzero
pressure; the inhibition clause of the spec's activation predicate does not
apply to this stateless gate. -/
theorem C2_is_active_amended (p : ShellcheckPressure) (s : Signals)
    (h : 0 < p.activation_threshold) :
    p.is_active s = true ↔
      (p.activation_threshold ≤ p.calculate s ∧ specAxisSupport p s) := by
  unfold ShellcheckPressure.is_active
  rw [decide_eq_true_iff]
  constructor
  · intro hc
    refine ⟨hc, ?_⟩
    by_contra hns
    unfold specAxisSupport at hns
    push_neg at hns
    obtain ⟨h1, h2, h3, h4⟩ := hns
    have hz : p.calculate s = 0 := by
      simp only [ShellcheckPressure.calculate]
      rw [h1, h2, h3, h4]
      ring
    rw [hz] at hc
    exact absurd (lt_of_lt_of_le h hc) (lt_irrefl 0)
  · intro hand
    exact hand.1

/-- Witness for the amended C2 at the default threshold 2.0 and a signal map with
one error. -/
theorem C2_is_active_amended_witness :
    (0 : ℚ) < ShellcheckPressure.new.activation_threshold ∧
      (ShellcheckPressure.new.is_active [("error_count", 1)] = true ↔
        (ShellcheckPressure.new.activation_threshold ≤
            ShellcheckPressure.new.calculate [("error_count", 1)] ∧
          specAxisSupport ShellcheckPressure.new [("error_count", 1)])) :=
  ⟨by rw [show ShellcheckPressure.new.activation_threshold = 2 from rfl]; norm_num,
   C2_is_active_amended ShellcheckPressure.new [("error_count", 1)]
     (by rw [show ShellcheckPressure.new.activation_threshold = 2 from rfl]; norm_num)⟩

/-- The counting loop counts exactly the issues of each recognised level. -/
theorem countIssues_filter (issues : List ShellcheckIssue) (acc : ℚ × ℚ × ℚ × ℚ) :
    issues.foldl countStep acc =
      (acc.1 + ((issues.filter (fun i => i.level = "error")).length : ℚ),
       acc.2.1 + ((issues.filter (fun i => i.level = "warning")).length : ℚ),
       acc.2.2.1 + ((issues.filter (fun i => i.level = "info")).length : ℚ),
       acc.2.2.2 + ((issues.filter (fun i => i.level = "style")).length : ℚ)) := by
  induction issues generalizing acc with
  | nil => simp
  | cons hd tl ih =>
    simp only [List.foldl_cons, List.filter_cons]
    by_cases h1 : hd.level = "error"
    · simp [countStep, h1, ih, Prod.ext_iff]
      all_goals ring
    · by_cases h2 : hd.level = "warning"
      · simp [countStep, h1, h2, ih, Prod.ext_iff]
        all_goals ring
      · by_cases h3 : hd.level = "info"
        · simp [countStep, h1, h2, h3, ih, Prod.ext_iff]
          all_goals ring
        · by_cases h4 : hd.level = "style"
          · simp [countStep, h1, h2, h3, h4, ih, Prod.ext_iff]
            all_goals ring
          · simp [countStep, h1, h2, h3, h4, ih]

/-- Claim C10: the signal map emitted by `ShellcheckSensor::measure` satisfies
`total_issues = error + warning + info + style`, `issue_density = total_issues /
max(line count, 1)`, and each severity count counts exactly the issues of that
level, so issues of unrecognised levels are counted in none of the signals. -/
theorem C10_measure_signal_coherence (issues : List ShellcheckIssue) (content : List Char) :
    getSignal (shellcheckMeasure issues content) "total_issues"
        = getSignal (shellcheckMeasure issues content) "error_count"
          + getSignal (shellcheckMeasure issues content) "warning_count"
          + getSignal (shellcheckMeasure issues content) "info_count"
          + getSignal (shellcheckMeasure issues content) "style_count"
      ∧ getSignal (shellcheckMeasure issues content) "issue_density"
        = getSignal (shellcheckMeasure issues content) "total_issues"
          / (((linesCount content).max 1 : Nat) : ℚ)
      ∧ getSignal (shellcheckMeasure issues content) "error_count"
        = ((issues.filter (fun i => i.level = "error")).length : ℚ)
      ∧ getSignal (shellcheckMeasure issues content) "warning_count"
        = ((issues.filter (fun i => i.level = "warning")).length : ℚ)
      ∧ getSignal (shellcheckMeasure issues content) "info_count"
        = ((issues.filter (fun i => i.level = "info")).length : ℚ)
      ∧ getSignal (shellcheckMeasure issues content) "style_count"
        = ((issues.filter (fun i => i.level = "style")).length : ℚ) := by
  have hc := countIssues_filter issues (0, 0, 0, 0)
  rw [show ((0, 0, 0, 0) : ℚ × ℚ × ℚ × ℚ) = 0 from rfl] at hc
  simp [shellcheckMeasure, countIssues, hc, getSignal, List.lookup]

/-- Claim C5: the sensor actor's `MeasureRegion` handler sends no message to the
coordinator when the wrapped sensor's `measure` fails, and sends exactly one
`MeasurementResult` carrying the request's correlation id and region id when it
succeeds. -/
theorem C5_sensor_actor_messages (sa : SensorActor) (msg : MeasureRegion) :
    (∀ e, sa.sensor.measure msg.region_view = .error e →
        handleMeasureRegion sa.spawnState msg = [])
      ∧ (∀ sg, sa.sensor.measure msg.region_view = .ok sg →
        handleMeasureRegion sa.spawnState msg =
          [{ correlation_id := msg.correlation_id, region_id := msg.region_id,
             sensor_name := sa.sensor.name, signals := sg }]) := by
  constructor <;> intro x hx <;>
    simp [handleMeasureRegion, SensorActor.spawnState, hx]

/-- Witness for C5: one succeeding and one failing concrete sensor. -/
theorem C5_sensor_actor_messages_witness :
    handleMeasureRegion
        (SensorActor.spawnState
          ⟨⟨"shellcheck", fun _ => .ok [("total_issues", 0)]⟩, "coordinator"⟩)
        ⟨7, 11, ⟨11, "function", [], []⟩⟩
      = [{ correlation_id := 7, region_id := 11, sensor_name := "shellcheck",
           signals := [("total_issues", 0)] }]
    ∧ handleMeasureRegion
        (SensorActor.spawnState
          ⟨⟨"shellcheck", fun _ => .error "shellcheck failed"⟩, "coordinator"⟩)
        ⟨7, 11, ⟨11, "function", [], []⟩⟩
      = [] :=
  ⟨(C5_sensor_actor_messages
      ⟨⟨"shellcheck", fun _ => .ok [("total_issues", 0)]⟩, "coordinator"⟩
      ⟨7, 11, ⟨11, "function", [], []⟩⟩).2 [("total_issues", 0)] rfl,
   (C5_sensor_actor_messages
      ⟨⟨"shellcheck", fun _ => .error "shellcheck failed"⟩, "coordinator"⟩
      ⟨7, 11, ⟨11, "function", [], []⟩⟩).1 "shellcheck failed" rfl⟩

/-- Claim C6 names a genuine divergence between spec and code: the per-tick
accounting of `run_pressure_field` records `config.agent_count` LLM calls for
every tick, independent of the number of proposal requests actually issued; at a
tick that issued no proposal request and `agent_count = 2`, the recorded figure
is `2`, not `0`. -/
theorem C6_llm_calls_recorded_approximate :
    (∀ (m : ExperimentMetrics) (agent_count : Nat),
        (recordTickLlmCalls m agent_count).llm_calls_history.getLast? = some agent_count
          ∧ (recordTickLlmCalls m agent_count).llm_calls = m.llm_calls + agent_count)
      ∧ (recordTickLlmCalls ExperimentMetrics.default 2).llm_calls = 2
      ∧ (2 : Nat) ≠ 0 := by
  refine ⟨fun m k => ⟨?_, rfl⟩, rfl, by decide⟩
  simp [recordTickLlmCalls]

/-! ## Parse structure lemmas -/

/-- A successful association-list lookup locates a member. -/
theorem lookup_mem {l : List (RegionId × ShellRegion)} {k : RegionId} {v : ShellRegion}
    (h : List.lookup k l = some v) : (k, v) ∈ l := by
  induction l with
  | nil => simp [List.lookup] at h
  | cons hd tl ih =>
    obtain ⟨k', v'⟩ := hd
    simp only [List.lookup] at h
    by_cases hk : k = k'
    · subst hk
      simp at h
      subst h
      exact List.mem_cons_self _ _
    · rw [beq_eq_false_iff_ne.mpr hk] at h
      exact List.mem_cons_of_mem _ (ih h)

/-- Looking up the freshly inserted key returns the fresh value. -/
theorem lookup_insertRegion_self (m : List (RegionId × ShellRegion)) (k : RegionId)
    (v : ShellRegion) : List.lookup k (insertRegion m k v) = some v := by
  simp [insertRegion, List.lookup]

/-- Dropping bindings of an unrelated key does not change a lookup. -/
theorem lookup_filter_ne (m : List (RegionId × ShellRegion)) (k k' : RegionId)
    (h : k' ≠ k) :
    List.lookup k' (m.filter (fun kv => kv.1 != k)) = List.lookup k' m := by
  induction m with
  | nil => simp
  | cons hd tl ih =>
    obtain ⟨k0, v0⟩ := hd
    by_cases h0 : k0 = k
    · subst h0
      simp only [List.filter_cons, bne_self_eq_false, Bool.false_eq_true, if_false]
      rw [ih]
      simp only [List.lookup]
      rw [beq_eq_false_iff_ne.mpr h]
    · simp only [List.filter_cons]
      rw [if_pos (by simpa [bne] using h0)]
      simp only [List.lookup]
      cases hbe : k' == k0 with
      | true => rfl
      | false => exact ih

/-- Inserting a different key does not change a lookup. -/
theorem lookup_insertRegion_ne (m : List (RegionId × ShellRegion)) (k : RegionId)
    (v : ShellRegion) (k' : RegionId) (h : k' ≠ k) :
    List.lookup k' (insertRegion m k v) = List.lookup k' m := by
  simp only [insertRegion, List.lookup]
  rw [beq_eq_false_iff_ne.mpr h]
  exact lookup_filter_ne m k k' h

/-- Membership after an insert: the new binding or a surviving old one. -/
theorem mem_insertRegion {kv : RegionId × ShellRegion}
    {m : List (RegionId × ShellRegion)} {k : RegionId} {v : ShellRegion}
    (h : kv ∈ insertRegion m k v) : kv = (k, v) ∨ kv ∈ m := by
  rcases List.mem_cons.mp h with h1 | h1
  · exact Or.inl h1
  · exact Or.inr (List.mem_filter.mp h1).1

/-- Soundness of the scan: every reported match starts at or after the scan
position, inside the source, at a line start, and the header matcher succeeds
there with exactly the reported extent. -/
theorem scanFromF_sound (s : List Char) (fuel : Nat) :
    ∀ (q : Nat) (t : String × Nat × Nat), t ∈ scanFromF s fuel q →
      q ≤ t.2.1 ∧ t.2.1 < s.length ∧ lineStartB s t.2.1 = true ∧
        headerMatchAt (s.drop t.2.1) = some (t.1, t.2.2 - t.2.1) := by
  induction fuel with
  | zero => intro q t h; simp [scanFromF] at h
  | succ f ih =>
    intro q t h
    rw [scanFromF] at h
    split at h
    · simp at h
    · rename_i hq
      cases hls : (if lineStartB s q then headerMatchAt (s.drop q) else none) with
      | none =>
        rw [hls] at h
        have hrest := ih (q + 1) t h
        exact ⟨by omega, hrest.2⟩
      | some nl =>
        rw [hls] at h
        obtain ⟨name, len⟩ := nl
        rcases List.mem_cons.mp h with rfl | hmem
        · have hlsb : lineStartB s q = true := by
            cases hb : lineStartB s q with
            | false => rw [hb] at hls; simp at hls
            | true => rfl
          rw [hlsb] at hls
          simp only [if_true] at hls
          refine ⟨le_refl q, show q < s.length by omega, hlsb, ?_⟩
          show headerMatchAt (s.drop q) = some (name, q + len - q)
          rw [Nat.add_sub_cancel_left]
          exact hls
        · have hrest := ih (q + len) t hmem
          exact ⟨le_trans (Nat.le_add_right q len) hrest.1, hrest.2⟩

/-- Soundness of `scanMatches`. -/
theorem scanMatches_sound (s : List Char) (t : String × Nat × Nat)
    (h : t ∈ scanMatches s) :
    t.2.1 < s.length ∧ lineStartB s t.2.1 = true ∧
      headerMatchAt (s.drop t.2.1) = some (t.1, t.2.2 - t.2.1) :=
  (scanFromF_sound s (s.length + 1) 0 t h).2

/-- A successful brace search returns a position strictly beyond its start,
within the source, whose preceding character is the closing brace. -/
theorem braceLoop_ok (s : List Char) (start : Nat) (fuel : Nat) :
    ∀ (i : Nat) (depth : Int) (instr : Bool) (sc : Char) (e : Nat),
      braceLoop s start fuel i depth instr sc = .ok e →
      i < e ∧ e ≤ s.length ∧ s.get? (e - 1) = some '}' := by
  induction fuel with
  | zero => intro i d b c e h; simp [braceLoop] at h
  | succ f ih =>
    intro i d b c e h
    rw [braceLoop] at h
    cases hg : s.get? i with
    | none => rw [hg] at h; simp at h
    | some ch =>
      rw [hg] at h
      have hi : i < s.length := by
        by_contra hh
        push_neg at hh
        rw [List.get?_eq_none.mpr hh] at hg
        cases hg
      simp only at h
      split at h
      · split at h
        · have hr := ih _ _ _ _ _ h
          exact ⟨by omega, hr.2⟩
        · split at h
          · rename_i hbrace
            split at h
            · have he : e = i + 1 := (Except.ok.inj h).symm
              subst he
              refine ⟨Nat.lt_succ_self i, hi, ?_⟩
              rw [Nat.add_sub_cancel, hg, beq_iff_eq.mp hbrace]
            · have hr := ih _ _ _ _ _ h
              exact ⟨by omega, hr.2⟩
          · have hr := ih _ _ _ _ _ h
            exact ⟨by omega, hr.2⟩
      · have hr := ih _ _ _ _ _ h
        exact ⟨by omega, hr.2⟩

/-- Bounds of `find_matching_brace`. -/
theorem findMatchingBrace_ok (s : List Char) (start e : Nat)
    (h : findMatchingBrace s start = .ok e) :
    start < e ∧ e ≤ s.length ∧ s.get? (e - 1) = some '}' :=
  braceLoop_ok s start (s.length + 1) start 0 false '"' e h

/-- The order list built by the parse loop: one region id per match, in match
order, derived from the artifact path and the captured function name. -/
theorem buildRegions_order (path : String) (s : List Char) :
    ∀ (ms : List (String × Nat × Nat)) (m0 : List (RegionId × ShellRegion))
      (o0 : List RegionId) (m : List (RegionId × ShellRegion)) (o : List RegionId),
      buildRegions path s ms (m0, o0) = .ok (m, o) →
      o = o0 ++ ms.map (fun t => regionId path t.1) := by
  intro ms
  induction ms with
  | nil =>
    intro m0 o0 m o h
    simp only [buildRegions] at h
    obtain ⟨h1, h2⟩ := Prod.mk.injEq _ _ _ _ |>.mp (Except.ok.inj h)
    simp [h2.symm]
  | cons t rest ih =>
    intro m0 o0 m o h
    simp only [buildRegions] at h
    split at h
    · simp at h
    · have := ih _ _ _ _ h
      rw [this, List.append_assoc]
      simp

/-- Every binding of the parsed region map arises from the initial accumulator
or from some regex match with its brace-search result. -/
theorem buildRegions_entries (path : String) (s : List Char) :
    ∀ (ms : List (String × Nat × Nat)) (acc : List (RegionId × ShellRegion) × List RegionId)
      (m : List (RegionId × ShellRegion)) (o : List RegionId),
      buildRegions path s ms acc = .ok (m, o) →
      ∀ kv, kv ∈ m → kv ∈ acc.1 ∨
        ∃ t, t ∈ ms ∧ ∃ stop, findMatchingBrace s t.2.1 = .ok stop ∧
          kv = (regionId path t.1, regionOfMatch s t stop) := by
  intro ms
  induction ms with
  | nil =>
    intro acc m o h kv hkv
    obtain ⟨acc1, acc2⟩ := acc
    simp only [buildRegions] at h
    obtain ⟨h1, _⟩ := Prod.mk.injEq _ _ _ _ |>.mp (Except.ok.inj h)
    exact Or.inl (h1 ▸ hkv)
  | cons t rest ih =>
    intro acc m o h kv hkv
    obtain ⟨acc1, acc2⟩ := acc
    simp only [buildRegions] at h
    split at h
    · simp at h
    · rename_i stop hstop
      rcases ih _ _ _ h kv hkv with hin | ⟨t', ht', hrest⟩
      · rcases mem_insertRegion hin with heq | hold
        · exact Or.inr ⟨t, List.mem_cons_self _ _, stop, hstop, heq⟩
        · exact Or.inl hold
      · exact Or.inr ⟨t', List.mem_cons_of_mem _ ht', hrest⟩

/-- If no remaining match derives the id, the parse loop leaves its binding
unchanged. -/
theorem buildRegions_lookup_frame (path : String) (s : List Char) :
    ∀ (ms : List (String × Nat × Nat)) (acc : List (RegionId × ShellRegion) × List RegionId)
      (m : List (RegionId × ShellRegion)) (o : List RegionId),
      buildRegions path s ms acc = .ok (m, o) →
      ∀ id, (∀ t ∈ ms, regionId path t.1 ≠ id) →
        List.lookup id m = List.lookup id acc.1 := by
  intro ms
  induction ms with
  | nil =>
    intro acc m o h id _
    obtain ⟨acc1, acc2⟩ := acc
    simp only [buildRegions] at h
    obtain ⟨h1, _⟩ := Prod.mk.injEq _ _ _ _ |>.mp (Except.ok.inj h)
    rw [h1]
  | cons t rest ih =>
    intro acc m o h id hne
    obtain ⟨acc1, acc2⟩ := acc
    simp only [buildRegions] at h
    split at h
    · simp at h
    · have h1 := ih _ _ _ h id (fun t' ht' => hne t' (List.mem_cons_of_mem _ ht'))
      rw [h1]
      exact lookup_insertRegion_ne _ _ _ _ (fun hc => hne t (List.mem_cons_self _ _) hc.symm)

/-- The binding surviving in the parsed map for an id is the region of the last
match deriving that id. -/
theorem buildRegions_lookup_last (path : String) (s : List Char) :
    ∀ (ms : List (String × Nat × Nat)) (acc : List (RegionId × ShellRegion) × List RegionId)
      (m : List (RegionId × ShellRegion)) (o : List RegionId),
      buildRegions path s ms acc = .ok (m, o) →
      ∀ id t, lastMatchFor path ms id = some t →
        ∃ stop, findMatchingBrace s t.2.1 = .ok stop ∧
          List.lookup id m = some (regionOfMatch s t stop) := by
  intro ms
  induction ms with
  | nil => intro acc m o h id t hlast; simp [lastMatchFor] at hlast
  | cons hd rest ih =>
    intro acc m o h id t hlast
    obtain ⟨acc1, acc2⟩ := acc
    simp only [buildRegions] at h
    cases hfb : findMatchingBrace s hd.2.1 with
    | error e0 => rw [hfb] at h; simp at h
    | ok stop0 =>
      rw [hfb] at h
      simp only at h
      cases hrest : lastMatchFor path rest id with
      | some t' =>
        have hne : (rest.filter (fun t => regionId path t.1 == id)) ≠ [] := by
          intro hnil
          simp only [lastMatchFor, hnil] at hrest
          simp at hrest
        have hcons : lastMatchFor path (hd :: rest) id = lastMatchFor path rest id := by
          simp only [lastMatchFor, List.filter_cons]
          split
          · obtain ⟨a, l, hal⟩ := List.exists_cons_of_ne_nil hne
            rw [hal]
            exact List.getLast?_cons_cons
          · rfl
        rw [hcons, hrest] at hlast
        obtain rfl : t' = t := Option.some.inj hlast
        exact ih _ _ _ h id _ hrest
      | none =>
        have hnil : rest.filter (fun t => regionId path t.1 == id) = [] := by
          by_contra hne
          obtain ⟨a, l, hal⟩ := List.exists_cons_of_ne_nil hne
          simp only [lastMatchFor, hal] at hrest
          simp [List.getLast?] at hrest
        have hnorest : ∀ t' ∈ rest, regionId path t'.1 ≠ id := by
          intro t' ht' hc
          have := List.filter_eq_nil_iff.mp hnil t' ht'
          simp [hc] at this
        have hpred : (regionId path hd.1 == id) = true ∧ t = hd := by
          simp only [lastMatchFor, List.filter_cons, hnil] at hlast
          split at hlast
          · rename_i hp
            simp [List.getLast?] at hlast
            exact ⟨hp, hlast.symm⟩
          · simp at hlast
        obtain ⟨hpred1, rfl⟩ := hpred
        have hid := beq_iff_eq.mp hpred1
        have hframe := buildRegions_lookup_frame path s rest _ _ _ h id hnorest
        refine ⟨stop0, hfb, ?_⟩
        rw [hframe, ← hid]
        exact lookup_insertRegion_self _ _ _

/-! ### Header matcher characterisation -/

/-- The characters accepted by `takeWhileCount` and the first rejected one. -/
theorem takeWhileCount_spec (p : Char → Bool) (t : List Char) :
    (∀ i, i < takeWhileCount p t → ∃ c, t.get? i = some c ∧ p c = true) ∧
      (∀ c, t.get? (takeWhileCount p t) = some c → p c = false) := by
  induction t with
  | nil => simp [takeWhileCount]
  | cons hd tl ih =>
    by_cases hp : p hd
    · simp only [takeWhileCount, hp, if_true]
      constructor
      · intro i hi
        cases i with
        | zero => exact ⟨hd, rfl, hp⟩
        | succ i0 =>
          have := ih.1 i0 (by omega)
          simpa using this
      · intro c hc
        exact ih.2 c (by simpa using hc)
    · rw [takeWhileCount, if_neg hp]
      constructor
      · intro i hi; omega
      · intro c hc
        have hchd : c = hd := by simpa using hc.symm
        subst hchd
        cases hpc : p c with
        | false => rfl
        | true => exact absurd hpc hp

/-- `takeWhileCount` is determined by any run-and-stop description. -/
theorem takeWhileCount_eq (p : Char → Bool) (t : List Char) (k : Nat)
    (hrun : ∀ i, i < k → ∃ c, t.get? i = some c ∧ p c = true)
    (hstop : ∀ c, t.get? k = some c → p c = false) :
    takeWhileCount p t = k := by
  have hs := takeWhileCount_spec p t
  by_contra hne
  rcases Nat.lt_or_ge (takeWhileCount p t) k with hlt | hge
  · obtain ⟨c, hc, hpc⟩ := hrun _ hlt
    have h2 := hs.2 c hc
    rw [h2] at hpc
    cases hpc
  · have hlt2 : k < takeWhileCount p t := by omega
    obtain ⟨c, hc, hpc⟩ := hs.1 k hlt2
    have h2 := hstop c hc
    rw [h2] at hpc
    cases hpc

/-- Whitespace characters are neither word starts nor word characters. -/
theorem ws_not_word {c : Char} (h : isWs c = true) :
    isWordStart c = false ∧ isWordChar c = false := by
  simp only [isWs, Bool.or_eq_true, decide_eq_true_eq] at h
  rcases h with ((((rfl | rfl) | rfl) | rfl) | rfl) | rfl <;>
    exact ⟨by decide, by decide⟩

/-- A word-start character is a word character. -/
theorem wordStart_isWordChar {c : Char} (h : isWordStart c = true) :
    isWordChar c = true := by
  simp only [isWordStart, Bool.or_eq_true, decide_eq_true_eq] at h
  simp only [isWordChar, Bool.or_eq_true, decide_eq_true_eq]
  rcases h with h | rfl
  · exact Or.inl (by simp [Char.isAlphanum, h])
  · exact Or.inr rfl

/-- A word-start character is not whitespace. -/
theorem wordStart_not_ws {c : Char} (h : isWordStart c = true) : isWs c = false := by
  cases hw : isWs c with
  | false => rfl
  | true =>
    have := (ws_not_word hw).1
    rw [h] at this
    cases this

/-- If `l.get? n` yields a character, `l.drop n` starts with it. -/
theorem get?_drop_cons {l : List Char} {n : Nat} {a : Char}
    (h : l.get? n = some a) : l.drop n = a :: l.drop (n + 1) := by
  induction l generalizing n with
  | nil => simp at h
  | cons hd tl ih =>
    cases n with
    | zero => simp at h; simp [h]
    | succ n0 =>
      simp only [List.get?_cons_succ] at h
      simpa using ih h

/-- Index form of dropping. -/
theorem get?_drop_idx (l : List Char) (n i : Nat) :
    (l.drop n).get? i = l.get? (n + i) := by
  rw [List.get?_drop]

/-- Transport a `get?` fact along an index equality. -/
theorem get?_congr_idx {l : List Char} {i j : Nat} {c : Char}
    (h : l.get? i = some c) (hij : j = i) : l.get? j = some c := by
  rw [hij]; exact h

/-- The head of a dropped suffix. -/
theorem drop_cons_get? {l r : List Char} {n : Nat} {a : Char}
    (h : l.drop n = a :: r) : l.get? n = some a := by
  have h0 : (l.drop n).get? 0 = some a := by rw [h]; rfl
  rwa [get?_drop_idx, Nat.add_zero] at h0

/-- The tail of a dropped suffix. -/
theorem drop_cons_tail {l r : List Char} {n : Nat} {a : Char}
    (h : l.drop n = a :: r) : r = l.drop (n + 1) := by
  have h2 := get?_drop_cons (drop_cons_get? h)
  rw [h] at h2
  exact (List.cons.injEq _ _ _ _ |>.mp h2).2

/-- `identAfter` succeeds exactly on the declarative plain-header decompositions. -/
theorem identAfter_iff (t : List Char) (n : String) (len : Nat) :
    identAfter t = some (n, len) ↔ PlainD t n len := by
  constructor
  · intro h
    cases t with
    | nil => simp [identAfter] at h
    | cons c rest =>
      rw [identAfter] at h
      by_cases hws : isWordStart c
      · rw [if_pos hws] at h
        simp only at h
        split at h
        · rename_i t2 heq1
          split at h
          · rename_i t3 heq2
            split at h
            · rename_i t4 heq3
              obtain ⟨hn, hlen⟩ := Prod.mk.injEq _ _ _ _ |>.mp (Option.some.inj h)
              set k := takeWhileCount isWordChar (c :: rest) with hkd
              set w1 := takeWhileCount isWs ((c :: rest).drop k) with hw1d
              set w2 := takeWhileCount isWs t2 with hw2d
              set w3 := takeWhileCount isWs t3 with hw3d
              have hpart1 : (c :: rest).drop (k + w1) = '(' :: t2 := by
                rw [← List.drop_drop]
                exact heq1
              have hpi1 : (c :: rest).get? (k + w1) = some '(' := drop_cons_get? hpart1
              have ht2 : t2 = (c :: rest).drop (k + w1 + 1) := drop_cons_tail hpart1
              have hpart2 : (c :: rest).drop (k + w1 + 1 + w2) = ')' :: t3 := by
                have h2 : ((c :: rest).drop (k + w1 + 1)).drop w2 = ')' :: t3 := by
                  rw [← ht2]; exact heq2
                rwa [List.drop_drop] at h2
              have hpi2 : (c :: rest).get? (k + w1 + 1 + w2) = some ')' := drop_cons_get? hpart2
              have ht3 : t3 = (c :: rest).drop (k + w1 + 1 + w2 + 1) := drop_cons_tail hpart2
              have hpart3 : (c :: rest).drop (k + w1 + 1 + w2 + 1 + w3) = '{' :: t4 := by
                have h2 : ((c :: rest).drop (k + w1 + 1 + w2 + 1)).drop w3 = '{' :: t4 := by
                  rw [← ht3]; exact heq3
                rwa [List.drop_drop] at h2
              have hpi3 : (c :: rest).get? (k + w1 + 1 + w2 + 1 + w3) = some '{' :=
                drop_cons_get? hpart3
              refine ⟨k, w1, w2, w3, ?_, ⟨c, rfl, hws⟩, ?_, ?_, hn.symm, ?_,
                get?_congr_idx hpi1 rfl, ?_, get?_congr_idx hpi2 (by omega), ?_,
                get?_congr_idx hpi3 (by omega), ?_⟩
              · rw [hkd, takeWhileCount, if_pos (wordStart_isWordChar hws)]
                omega
              · intro i _ hi
                exact (takeWhileCount_spec isWordChar (c :: rest)).1 i (hkd ▸ hi)
              · intro c1 hc1
                exact (takeWhileCount_spec isWordChar (c :: rest)).2 c1 (hkd ▸ hc1)
              · intro i h1 h2
                obtain ⟨c1, hc1, hw⟩ := (takeWhileCount_spec isWs ((c :: rest).drop k)).1
                  (i - k) (by rw [← hw1d]; omega)
                rw [get?_drop_idx] at hc1
                exact ⟨c1, get?_congr_idx hc1 (by omega), hw⟩
              · intro i h1 h2
                obtain ⟨c1, hc1, hw⟩ := (takeWhileCount_spec isWs t2).1
                  (i - (k + w1 + 1)) (by rw [← hw2d]; omega)
                rw [ht2, get?_drop_idx] at hc1
                exact ⟨c1, get?_congr_idx hc1 (by omega), hw⟩
              · intro i h1 h2
                obtain ⟨c1, hc1, hw⟩ := (takeWhileCount_spec isWs t3).1
                  (i - (k + w1 + 2 + w2)) (by rw [← hw3d]; omega)
                rw [ht3, get?_drop_idx] at hc1
                exact ⟨c1, get?_congr_idx hc1 (by omega), hw⟩
              · omega
            · simp at h
          · simp at h
        · simp at h
      · rw [if_neg hws] at h
        simp at h
  · rintro ⟨k, w1, w2, w3, hk0, ⟨c0, hc0, hws0⟩, hrun, hmax, hname, hws1, hpar1,
      hws2, hpar2, hws3, hbrace, hlen⟩
    cases t with
    | nil => simp at hc0
    | cons c rest =>
      have hcc : c = c0 := by simpa using hc0
      subst hcc
      have htk : takeWhileCount isWordChar (c :: rest) = k := by
        refine takeWhileCount_eq _ _ _ (fun i hi => hrun i (by omega) hi) hmax
      have htw1 : takeWhileCount isWs ((c :: rest).drop k) = w1 := by
        refine takeWhileCount_eq _ _ _ ?_ ?_
        · intro i hi
          obtain ⟨c1, hc1, hw⟩ := hws1 (k + i) (by omega) (by omega)
          exact ⟨c1, by rw [get?_drop_idx]; exact hc1, hw⟩
        · intro c1 hc1
          rw [get?_drop_idx, hpar1] at hc1
          obtain rfl : c1 = '(' := by simpa using hc1.symm
          decide
      have hdrop1 : ((c :: rest).drop k).drop w1 = '(' :: (c :: rest).drop (k + w1 + 1) := by
        rw [List.drop_drop]
        exact get?_drop_cons hpar1
      have htw2 : takeWhileCount isWs ((c :: rest).drop (k + w1 + 1)) = w2 := by
        refine takeWhileCount_eq _ _ _ ?_ ?_
        · intro i hi
          obtain ⟨c1, hc1, hw⟩ := hws2 (k + w1 + 1 + i) (by omega) (by omega)
          exact ⟨c1, by rw [get?_drop_idx]; exact hc1, hw⟩
        · intro c1 hc1
          rw [get?_drop_idx] at hc1
          have hc2 := get?_congr_idx hc1 (rfl : k + w1 + 1 + w2 = k + w1 + 1 + w2)
          rw [hpar2] at hc2
          obtain rfl : c1 = ')' := by simpa using hc2.symm
          decide
      have hdrop2 : ((c :: rest).drop (k + w1 + 1)).drop w2 =
          ')' :: (c :: rest).drop (k + w1 + 1 + w2 + 1) := by
        rw [List.drop_drop]
        exact get?_drop_cons (get?_congr_idx hpar2 rfl)
      have htw3 : takeWhileCount isWs ((c :: rest).drop (k + w1 + 1 + w2 + 1)) = w3 := by
        refine takeWhileCount_eq _ _ _ ?_ ?_
        · intro i hi
          obtain ⟨c1, hc1, hw⟩ := hws3 (k + w1 + 2 + w2 + i) (by omega) (by omega)
          refine ⟨c1, ?_, hw⟩
          rw [get?_drop_idx]
          exact get?_congr_idx hc1 (by omega)
        · intro c1 hc1
          rw [get?_drop_idx] at hc1
          have hc2 := get?_congr_idx hc1 (show k + w1 + 2 + w2 + w3 =
            k + w1 + 1 + w2 + 1 + w3 by omega)
          rw [hbrace] at hc2
          obtain rfl : c1 = '{' := by simpa using hc2.symm
          decide
      have hdrop3 : ((c :: rest).drop (k + w1 + 1 + w2 + 1)).drop w3 =
          '{' :: (c :: rest).drop (k + w1 + 1 + w2 + 1 + w3 + 1) := by
        rw [List.drop_drop]
        exact get?_drop_cons (get?_congr_idx hbrace (by omega))
      rw [identAfter, if_pos hws0]
      simp only [htk, htw1, hdrop1, htw2, hdrop2, htw3, hdrop3]
      rw [hname]
      have hlen2 : k + w1 + 1 + w2 + 1 + w3 + 1 = len := by omega
      rw [hlen2]

/-- `matchLit` holds exactly when the text agrees with the literal pointwise. -/
theorem matchLit_iff (lit t : List Char) :
    matchLit lit t = true ↔ ∀ i, i < lit.length → t.get? i = lit.get? i := by
  induction lit generalizing t with
  | nil => simp [matchLit]
  | cons l ls ih =>
    cases t with
    | nil =>
      constructor
      · intro hf; simp [matchLit] at hf
      · intro hall
        have := hall 0 (by simp)
        simp at this
    | cons c cs =>
      simp only [matchLit, Bool.and_eq_true, decide_eq_true_eq, ih]
      constructor
      · rintro ⟨rfl, hall⟩ i hi
        cases i with
        | zero => rfl
        | succ i0 =>
          simp only [List.get?_cons_succ]
          exact hall i0 (by simpa using hi)
      · intro hall
        constructor
        · have := hall 0 (by simp)
          simpa using this.symm
        · intro i hi
          have := hall (i + 1) (by simpa using Nat.succ_lt_succ hi)
          simpa using this

/-- The characters of the keyword literal are word characters and not newlines. -/
theorem funcChars : ∀ i, i < 8 → ∃ c, ("function".toList : List Char).get? i = some c ∧
    isWordChar c = true ∧ isWs c = false ∧ c ≠ '\n' := by decide

/-- `identAfter` fails when the head is not a word-start character. -/
theorem identAfter_eq_none_of_head {t : List Char} {c : Char} (h : t.get? 0 = some c)
    (hws : isWordStart c = false) : identAfter t = none := by
  cases t with
  | nil => rfl
  | cons c0 r =>
    obtain rfl : c0 = c := by simpa using h
    rw [identAfter, if_neg (by simp [hws])]

/-- A satisfied head character makes `takeWhileCount` positive. -/
theorem takeWhileCount_pos {p : Char → Bool} {t : List Char} {c : Char}
    (h : t.get? 0 = some c) (hp : p c = true) : 0 < takeWhileCount p t := by
  cases t with
  | nil => simp at h
  | cons c0 r =>
    obtain rfl : c0 = c := by simpa using h
    rw [takeWhileCount, if_pos hp]
    omega

/-- Unpack a prefix decomposition into computational facts: the whitespace run
after the keyword is the one `headerMatchAt` computes, and `identAfter` succeeds
right after it. -/
theorem prefixD_elim {t : List Char} {n : String} {len : Nat} (h : PrefixD t n len) :
    ∃ w0 len2, 0 < w0 ∧ takeWhileCount isWs (t.drop 8) = w0 ∧
      identAfter (t.drop (8 + w0)) = some (n, len2) ∧ len = 8 + w0 + len2 ∧
      (∀ i, i < 8 → t.get? i = "function".toList.get? i) := by
  obtain ⟨w0, len2, hw0, hlit, hwsr, hpl, hlen⟩ := h
  refine ⟨w0, len2, hw0, ?_, (identAfter_iff _ _ _).mpr hpl, hlen, hlit⟩
  refine takeWhileCount_eq _ _ _ ?_ ?_
  · intro i hi
    obtain ⟨c1, hc1, hw⟩ := hwsr (8 + i) (by omega) (by omega)
    exact ⟨c1, by rw [get?_drop_idx]; exact hc1, hw⟩
  · intro c1 hc1
    rw [get?_drop_idx] at hc1
    obtain ⟨k, w1, w2, w3, hk0, ⟨c2, hc2, hws2⟩, _⟩ := hpl
    rw [get?_drop_idx, Nat.add_zero] at hc2
    rw [hc2] at hc1
    obtain rfl : c1 = c2 := by simpa using hc1.symm
    exact wordStart_not_ws hws2

/-- Mutual exclusivity: a plain decomposition starting with the keyword literal
followed by whitespace leaves `identAfter` failing after that whitespace. -/
theorem plainD_excl_keyword {t : List Char} {n : String} {len : Nat}
    (hpl : PlainD t n len) (hlit : matchLit "function".toList t = true)
    (hw : 0 < takeWhileCount isWs (t.drop 8)) :
    identAfter (t.drop (8 + takeWhileCount isWs (t.drop 8))) = none := by
  obtain ⟨k, w1, w2, w3, hk0, ⟨c0, hc0, hws0⟩, hrun, hmax, hname, hws1, hpar1,
    hws2, hpar2, hws3, hbrace, hlen⟩ := hpl
  have hchars := (matchLit_iff _ _).mp hlit
  have hc8 : ∃ cw, t.get? 8 = some cw ∧ isWs cw = true := by
    obtain ⟨cw, hcw, hw2⟩ := (takeWhileCount_spec isWs (t.drop 8)).1 0 hw
    rw [get?_drop_idx, Nat.add_zero] at hcw
    exact ⟨cw, hcw, hw2⟩
  have hk8 : 8 ≤ k := by
    by_contra hlt
    push_neg at hlt
    obtain ⟨cf, hcf, hcw, _, _⟩ := funcChars k hlt
    have hck : t.get? k = some cf := by rw [hchars k (by simpa using hlt), hcf]
    have := hmax cf hck
    rw [this] at hcw
    cases hcw
  have hk8' : k ≤ 8 := by
    by_contra hgt
    push_neg at hgt
    obtain ⟨cw, hcw, hwsw⟩ := hc8
    obtain ⟨c1, hc1, hwc⟩ := hrun 8 (by omega) (by omega)
    rw [hcw] at hc1
    obtain rfl : cw = c1 := by simpa using hc1
    have := (ws_not_word hwsw).2
    rw [this] at hwc
    cases hwc
  obtain rfl : k = 8 := by omega
  have hw1eq : takeWhileCount isWs (t.drop 8) = w1 := by
    refine takeWhileCount_eq _ _ _ ?_ ?_
    · intro i hi
      obtain ⟨c1, hc1, hwc⟩ := hws1 (8 + i) (by omega) (by omega)
      exact ⟨c1, by rw [get?_drop_idx]; exact hc1, hwc⟩
    · intro c1 hc1
      rw [get?_drop_idx, hpar1] at hc1
      obtain rfl : c1 = '(' := by simpa using hc1.symm
      decide
  rw [hw1eq]
  refine identAfter_eq_none_of_head (c := '(') ?_ (by decide)
  rw [get?_drop_idx, Nat.add_zero]
  exact hpar1

/-- `headerMatchAt` succeeds exactly on the declarative header decompositions. -/
theorem headerMatchAt_iff (t : List Char) (n : String) (len : Nat) :
    headerMatchAt t = some (n, len) ↔ HeaderD t n len := by
  rw [headerMatchAt]
  by_cases hlit : matchLit "function".toList t
  · rw [if_pos hlit]
    simp only
    by_cases hw : 0 < takeWhileCount isWs (t.drop 8)
    · rw [if_pos hw]
      cases hia : identAfter ((t.drop 8).drop (takeWhileCount isWs (t.drop 8))) with
      | some nl =>
        obtain ⟨n2, len2⟩ := nl
        rw [List.drop_drop] at hia
        constructor
        · intro h
          obtain ⟨hn2, hlen2⟩ := Prod.mk.injEq _ _ _ _ |>.mp (Option.some.inj h)
          subst hn2
          left
          refine ⟨takeWhileCount isWs (t.drop 8), len2, hw,
            fun i hi => (matchLit_iff _ _).mp hlit i hi, ?_,
            (identAfter_iff _ _ _).mp hia, by omega⟩
          intro i h1 h2
          obtain ⟨c1, hc1, hwc⟩ := (takeWhileCount_spec isWs (t.drop 8)).1 (i - 8)
            (by omega)
          rw [get?_drop_idx] at hc1
          exact ⟨c1, get?_congr_idx hc1 (by omega), hwc⟩
        · intro hd
          cases hd with
          | inl hpre =>
            obtain ⟨w0, len3, hw0, hweq, hident, hlen3, _⟩ := prefixD_elim hpre
            rw [hweq, hident] at hia
            obtain ⟨hn3, hlen4⟩ := Prod.mk.injEq _ _ _ _ |>.mp (Option.some.inj hia)
            rw [hweq, ← hn3, ← hlen4, hlen3]
          | inr hpl =>
            have := plainD_excl_keyword hpl hlit hw
            rw [this] at hia
            cases hia
      | none =>
        rw [List.drop_drop] at hia
        simp only
        rw [identAfter_iff]
        constructor
        · exact fun h => Or.inr h
        · intro hd
          cases hd with
          | inl hpre =>
            obtain ⟨w0, len3, hw0, hweq, hident, hlen3, _⟩ := prefixD_elim hpre
            rw [hweq, hident] at hia
            cases hia
          | inr hpl => exact hpl
    · rw [if_neg hw, identAfter_iff]
      constructor
      · exact fun h => Or.inr h
      · intro hd
        cases hd with
        | inl hpre =>
          obtain ⟨w0, len3, hw0, hweq, hident, hlen3, _⟩ := prefixD_elim hpre
          rw [hweq] at hw
          exact absurd hw0 hw
        | inr hpl => exact hpl
  · rw [if_neg hlit, identAfter_iff]
    constructor
    · exact fun h => Or.inr h
    · intro hd
      cases hd with
      | inl hpre =>
        obtain ⟨w0, len3, hw0, hweq, hident, hlen3, hchars⟩ := prefixD_elim hpre
        exact absurd ((matchLit_iff _ _).mpr (by simpa using hchars)) hlit
      | inr hpl => exact hpl

/-- A header decomposition has positive length. -/
theorem headerD_pos {t : List Char} {n : String} {len : Nat} (h : HeaderD t n len) :
    0 < len := by
  cases h with
  | inl hpre =>
    obtain ⟨w0, len2, hw0, _, _, _, hlen⟩ := hpre
    omega
  | inr hpl =>
    obtain ⟨k, w1, w2, w3, hk0, _, _, _, _, _, _, _, _, _, _, hlen⟩ := hpl
    omega

/-- A header decomposition starts with a word-start character. -/
theorem headerD_head {t : List Char} {n : String} {len : Nat} (h : HeaderD t n len) :
    ∃ c, t.get? 0 = some c ∧ isWordStart c = true := by
  cases h with
  | inl hpre =>
    obtain ⟨w0, len2, hw0, hchars, _⟩ := hpre
    refine ⟨'f', ?_, by decide⟩
    rw [hchars 0 (by omega)]
    rfl
  | inr hpl =>
    obtain ⟨k, w1, w2, w3, hk0, hhead, _⟩ := hpl
    exact hhead

/-- Lists agreeing below `k` have equal `take k`. -/
theorem take_eq_of_agree {t u : List Char} {k : Nat}
    (h : ∀ i, i < k → t.get? i = u.get? i) : t.take k = u.take k := by
  apply List.ext_get?
  intro i
  by_cases hi : i < k
  · rw [List.get?_take hi, List.get?_take hi]
    exact h i hi
  · push_neg at hi
    rw [List.get?_eq_none.mpr, List.get?_eq_none.mpr]
    · exact le_trans (List.length_take_le _ _) hi
    · exact le_trans (List.length_take_le _ _) hi

/-- Plain decompositions depend only on the first `len` characters. -/
theorem plainD_mono {t u : List Char} {n : String} {len : Nat}
    (hagree : ∀ i, i < len → t.get? i = u.get? i) (h : PlainD t n len) :
    PlainD u n len := by
  obtain ⟨k, w1, w2, w3, hk0, ⟨c0, hc0, hws0⟩, hrun, hmax, hname, hws1, hpar1,
    hws2, hpar2, hws3, hbrace, hlen⟩ := h
  refine ⟨k, w1, w2, w3, hk0, ⟨c0, ?_, hws0⟩, ?_, ?_, ?_, ?_, ?_, ?_, ?_, ?_, ?_, hlen⟩
  · rw [← hagree 0 (by omega)]; exact hc0
  · intro i h1 h2
    obtain ⟨c1, hc1, hw⟩ := hrun i h1 h2
    exact ⟨c1, by rw [← hagree i (by omega)]; exact hc1, hw⟩
  · intro c1 hc1
    refine hmax c1 ?_
    rw [hagree k (by omega)]
    exact hc1
  · rw [hname]
    congr 1
    exact take_eq_of_agree (fun i hi => hagree i (by omega))
  · intro i h1 h2
    obtain ⟨c1, hc1, hw⟩ := hws1 i h1 h2
    exact ⟨c1, by rw [← hagree i (by omega)]; exact hc1, hw⟩
  · rw [← hagree (k + w1) (by omega)]; exact hpar1
  · intro i h1 h2
    obtain ⟨c1, hc1, hw⟩ := hws2 i h1 h2
    exact ⟨c1, by rw [← hagree i (by omega)]; exact hc1, hw⟩
  · rw [← hagree (k + w1 + 1 + w2) (by omega)]; exact hpar2
  · intro i h1 h2
    obtain ⟨c1, hc1, hw⟩ := hws3 i h1 h2
    exact ⟨c1, by rw [← hagree i (by omega)]; exact hc1, hw⟩
  · rw [← hagree (k + w1 + 2 + w2 + w3) (by omega)]; exact hbrace

/-- Header decompositions depend only on the first `len` characters. -/
theorem headerD_mono {t u : List Char} {n : String} {len : Nat}
    (hagree : ∀ i, i < len → t.get? i = u.get? i) (h : HeaderD t n len) :
    HeaderD u n len := by
  cases h with
  | inl hpre =>
    obtain ⟨w0, len2, hw0, hchars, hwsr, hpl, hlen⟩ := hpre
    left
    refine ⟨w0, len2, hw0, ?_, ?_, ?_, hlen⟩
    · intro i hi
      rw [← hagree i (by omega)]
      exact hchars i hi
    · intro i h1 h2
      obtain ⟨c1, hc1, hw⟩ := hwsr i h1 h2
      exact ⟨c1, by rw [← hagree i (by omega)]; exact hc1, hw⟩
    · refine plainD_mono ?_ hpl
      intro i hi
      rw [get?_drop_idx, get?_drop_idx]
      exact hagree (8 + w0 + i) (by omega)
  | inr hpl =>
    exact Or.inr (plainD_mono (fun i hi => hagree i hi) hpl)

/-- Word characters, whitespace and parentheses are not quotes or braces. -/
theorem char_neutral {c : Char}
    (h : isWordChar c = true ∨ isWs c = true ∨ c = '(' ∨ c = ')') :
    (c == '"' || c == '\'' || c == '{' || c == '}') = false := by
  have hne : c ≠ '"' ∧ c ≠ '\'' ∧ c ≠ '{' ∧ c ≠ '}' := by
    rcases h with h | h | rfl | rfl
    · refine ⟨?_, ?_, ?_, ?_⟩ <;> (rintro rfl; exact absurd h (by decide))
    · refine ⟨?_, ?_, ?_, ?_⟩ <;> (rintro rfl; exact absurd h (by decide))
    · exact ⟨by decide, by decide, by decide, by decide⟩
    · exact ⟨by decide, by decide, by decide, by decide⟩
  obtain ⟨h1, h2, h3, h4⟩ := hne
  rw [beq_eq_false_iff_ne.mpr h1, beq_eq_false_iff_ne.mpr h2,
    beq_eq_false_iff_ne.mpr h3, beq_eq_false_iff_ne.mpr h4]
  rfl

/-- Character classes of a header: everything before the final `{` is a word
character, whitespace or a parenthesis, and the final character is `{`. -/
theorem headerD_chars {t : List Char} {n : String} {len : Nat} (h : HeaderD t n len) :
    (∀ j, j < len - 1 → ∃ c, t.get? j = some c ∧
      (isWordChar c = true ∨ isWs c = true ∨ c = '(' ∨ c = ')')) ∧
    t.get? (len - 1) = some '{' := by
  cases h with
  | inl hpre =>
    obtain ⟨w0, len2, hw0, hchars, hwsr, hpl, hlen⟩ := hpre
    have hinner := headerD_chars (Or.inr hpl)
    constructor
    · intro j hj
      by_cases hj8 : j < 8
      · obtain ⟨c1, hc1, hwc, _, _⟩ := funcChars j hj8
        refine ⟨c1, ?_, Or.inl hwc⟩
        rw [hchars j hj8, hc1]
      · by_cases hjw : j < 8 + w0
        · obtain ⟨c1, hc1, hw⟩ := hwsr j (by omega) hjw
          exact ⟨c1, hc1, Or.inr (Or.inl hw)⟩
        · obtain ⟨c1, hc1, hcl⟩ := hinner.1 (j - (8 + w0)) (by omega)
          rw [get?_drop_idx] at hc1
          exact ⟨c1, get?_congr_idx hc1 (by omega), hcl⟩
    · have := hinner.2
      rw [get?_drop_idx] at this
      have hp := headerD_pos (Or.inr hpl)
      exact get?_congr_idx this (by omega)
  | inr hpl =>
    obtain ⟨k, w1, w2, w3, hk0, ⟨c0, hc0, hws0⟩, hrun, hmax, hname, hws1, hpar1,
      hws2, hpar2, hws3, hbrace, hlen⟩ := hpl
    constructor
    · intro j hj
      by_cases h1 : j < k
      · obtain ⟨c1, hc1, hw⟩ := hrun j (by omega) h1
        exact ⟨c1, hc1, Or.inl hw⟩
      · by_cases h2 : j < k + w1
        · obtain ⟨c1, hc1, hw⟩ := hws1 j (by omega) h2
          exact ⟨c1, hc1, Or.inr (Or.inl hw)⟩
        · by_cases h3 : j = k + w1
          · exact ⟨'(', by rw [h3]; exact hpar1, Or.inr (Or.inr (Or.inl rfl))⟩
          · by_cases h4 : j < k + w1 + 1 + w2
            · obtain ⟨c1, hc1, hw⟩ := hws2 j (by omega) h4
              exact ⟨c1, hc1, Or.inr (Or.inl hw)⟩
            · by_cases h5 : j = k + w1 + 1 + w2
              · exact ⟨')', by rw [h5]; exact hpar2, Or.inr (Or.inr (Or.inr rfl))⟩
              · obtain ⟨c1, hc1, hw⟩ := hws3 j (by omega) (by omega)
                exact ⟨c1, hc1, Or.inr (Or.inl hw)⟩
    · exact get?_congr_idx hbrace (by omega)

/-- A successful header match has positive extent. -/
theorem headerMatchAt_pos {t : List Char} {n : String} {len : Nat}
    (h : headerMatchAt t = some (n, len)) : 0 < len :=
  headerD_pos ((headerMatchAt_iff t n len).mp h)

/-- Coverage of the scan: any line-start position where the header matcher
succeeds is covered by some reported match (which may have started earlier). -/
theorem scanFromF_covers (s : List Char) (fuel : Nat) :
    ∀ (q p : Nat) (n : String) (len : Nat), s.length < q + fuel →
      q ≤ p → lineStartB s p = true → headerMatchAt (s.drop p) = some (n, len) →
      p < s.length →
      ∃ t ∈ scanFromF s fuel q, t.2.1 ≤ p ∧ p < t.2.2 := by
  induction fuel with
  | zero =>
    intro q p n len hfuel hqp _ _ hp
    omega
  | succ f ih =>
    intro q p n len hfuel hqp hls hhm hp
    rw [scanFromF]
    have hq : ¬ s.length ≤ q := by omega
    rw [if_neg hq]
    cases hm : (if lineStartB s q then headerMatchAt (s.drop q) else none) with
    | some nl =>
      obtain ⟨n0, l0⟩ := nl
      by_cases hcov : p < q + l0
      · exact ⟨(n0, q, q + l0), List.mem_cons_self _ _, hqp, hcov⟩
      · push_neg at hcov
        have hl0 : 0 < l0 := by
          have hls0 : lineStartB s q = true := by
            cases hb : lineStartB s q with
            | false => rw [hb] at hm; simp at hm
            | true => rfl
          rw [hls0, if_pos rfl] at hm
          exact headerMatchAt_pos hm
        obtain ⟨t, ht, hcov2⟩ := ih (q + l0) p n len (by omega) hcov hls hhm hp
        exact ⟨t, List.mem_cons_of_mem _ ht, hcov2⟩
    | none =>
      have hqp2 : q ≠ p := by
        intro hqe
        subst hqe
        rw [hls, if_pos rfl, hhm] at hm
        cases hm
      obtain ⟨t, ht, hcov2⟩ := ih (q + 1) p n len (by omega) (by omega) hls hhm hp
      exact ⟨t, ht, hcov2⟩

/-- No interior position of a plain header is simultaneously preceded by a
newline and occupied by a word-start character. -/
theorem plainD_no_interior (s : List Char) (pm : Nat) (nm : String) (lm : Nat)
    (hpl : PlainD (s.drop pm) nm lm) (gs : Nat)
    (h1 : pm < gs) (h2 : gs < pm + lm)
    (hnl : s.get? (gs - 1) = some '\n')
    (hgw : ∃ c, s.get? gs = some c ∧ isWordStart c = true) : False := by
  obtain ⟨k, w1, w2, w3, hk0, hhead, hrun, hmax, hname, hws1, hpar1, hws2, hpar2,
    hws3, hbrace, hlen⟩ := hpl
  obtain ⟨cg, hcg, hcgw⟩ := hgw
  by_cases cA : gs - pm - 1 < k
  · obtain ⟨c, hc, hw⟩ := hrun (gs - pm - 1) (by omega) cA
    rw [get?_drop_idx] at hc
    have hc2 := get?_congr_idx hc (by omega : gs - 1 = pm + (gs - pm - 1))
    rw [hnl] at hc2
    obtain rfl : '\n' = c := by simpa using hc2
    exact absurd hw (by decide)
  · by_cases cB : gs - pm - 1 < k + w1
    · by_cases cB2 : gs - pm < k + w1
      · obtain ⟨cw, hcw, hwsw⟩ := hws1 (gs - pm) (by omega) cB2
        rw [get?_drop_idx] at hcw
        have hc2 := get?_congr_idx hcw (by omega : gs = pm + (gs - pm))
        rw [hcg] at hc2
        obtain rfl : cg = cw := by simpa using hc2
        have := wordStart_not_ws hcgw
        rw [this] at hwsw
        cases hwsw
      · have hpc := get?_congr_idx ((get?_drop_idx s pm (k + w1)).symm ▸ hpar1 :
          s.get? (pm + (k + w1)) = some '(')
          (by omega : gs = pm + (k + w1))
        rw [hcg] at hpc
        obtain rfl : cg = '(' := by simpa using hpc
        exact absurd hcgw (by decide)
    · by_cases cC : gs - pm - 1 = k + w1
      · have hpc := get?_congr_idx ((get?_drop_idx s pm (k + w1)).symm ▸ hpar1 :
          s.get? (pm + (k + w1)) = some '(')
          (by omega : gs - 1 = pm + (k + w1))
        rw [hnl] at hpc
        simp at hpc
      · by_cases cD : gs - pm - 1 < k + w1 + 1 + w2
        · by_cases cD2 : gs - pm < k + w1 + 1 + w2
          · obtain ⟨cw, hcw, hwsw⟩ := hws2 (gs - pm) (by omega) cD2
            rw [get?_drop_idx] at hcw
            have hc2 := get?_congr_idx hcw (by omega : gs = pm + (gs - pm))
            rw [hcg] at hc2
            obtain rfl : cg = cw := by simpa using hc2
            have := wordStart_not_ws hcgw
            rw [this] at hwsw
            cases hwsw
          · have hpc := get?_congr_idx ((get?_drop_idx s pm (k + w1 + 1 + w2)).symm ▸ hpar2 :
              s.get? (pm + (k + w1 + 1 + w2)) = some ')')
              (by omega : gs = pm + (k + w1 + 1 + w2))
            rw [hcg] at hpc
            obtain rfl : cg = ')' := by simpa using hpc
            exact absurd hcgw (by decide)
        · by_cases cE : gs - pm - 1 = k + w1 + 1 + w2
          · have hpc := get?_congr_idx ((get?_drop_idx s pm (k + w1 + 1 + w2)).symm ▸ hpar2 :
              s.get? (pm + (k + w1 + 1 + w2)) = some ')')
              (by omega : gs - 1 = pm + (k + w1 + 1 + w2))
            rw [hnl] at hpc
            simp at hpc
          · by_cases cF : gs - pm - 1 < k + w1 + 2 + w2 + w3
            · by_cases cF2 : gs - pm < k + w1 + 2 + w2 + w3
              · obtain ⟨cw, hcw, hwsw⟩ := hws3 (gs - pm) (by omega) cF2
                rw [get?_drop_idx] at hcw
                have hc2 := get?_congr_idx hcw (by omega : gs = pm + (gs - pm))
                rw [hcg] at hc2
                obtain rfl : cg = cw := by simpa using hc2
                have := wordStart_not_ws hcgw
                rw [this] at hwsw
                cases hwsw
              · have hpc := get?_congr_idx
                  ((get?_drop_idx s pm (k + w1 + 2 + w2 + w3)).symm ▸ hbrace :
                    s.get? (pm + (k + w1 + 2 + w2 + w3)) = some '{')
                  (by omega : gs = pm + (k + w1 + 2 + w2 + w3))
                rw [hcg] at hpc
                obtain rfl : cg = '{' := by simpa using hpc
                exact absurd hcgw (by decide)
            · omega

/-- The swallow lemma: a header match that strictly contains a line-start
position at which another header matches captures the same name as the
contained header. -/
theorem swallow (s : List Char) (pm gs : Nat) (nm ng : String) (lm lg : Nat)
    (hm : HeaderD (s.drop pm) nm lm)
    (hg : HeaderD (s.drop gs) ng lg)
    (h1 : pm < gs) (h2 : gs < pm + lm)
    (hnl : s.get? (gs - 1) = some '\n') :
    nm = ng := by
  have hgw : ∃ c, s.get? gs = some c ∧ isWordStart c = true := by
    obtain ⟨c, hc, hw⟩ := headerD_head hg
    rw [get?_drop_idx, Nat.add_zero] at hc
    exact ⟨c, hc, hw⟩
  cases hm with
  | inr hpl => exact (plainD_no_interior s pm nm lm hpl gs h1 h2 hnl hgw).elim
  | inl hpre =>
    obtain ⟨w0, len2, hw0, hchars, hwsr, hpl2, hlen⟩ := hpre
    by_cases cA : gs - pm - 1 < 8
    · obtain ⟨cf, hcf, _, _, hcfn⟩ := funcChars (gs - pm - 1) cA
      have hc := hchars (gs - pm - 1) cA
      rw [hcf, get?_drop_idx] at hc
      have hc2 := get?_congr_idx hc (by omega : gs - 1 = pm + (gs - pm - 1))
      rw [hnl] at hc2
      have hcf2 : cf = '\n' := by simpa using hc2.symm
      exact (hcfn hcf2).elim
    · by_cases cB : gs - pm - 1 < 8 + w0
      · by_cases cB2 : gs - pm < 8 + w0
        · obtain ⟨cw, hcw, hwsw⟩ := hwsr (gs - pm) (by omega) cB2
          rw [get?_drop_idx] at hcw
          obtain ⟨cg, hcg, hcgw⟩ := hgw
          have hc2 := get?_congr_idx hcw (by omega : gs = pm + (gs - pm))
          rw [hcg] at hc2
          obtain rfl : cg = cw := by simpa using hc2
          have := wordStart_not_ws hcgw
          rw [this] at hwsw
          cases hwsw
        · have hpl2' : PlainD (s.drop gs) nm len2 := by
            have hdd : (s.drop pm).drop (8 + w0) = s.drop gs := by
              rw [List.drop_drop]
              congr 1
              omega
            rw [← hdd]
            exact hpl2
          have e1 := (headerMatchAt_iff (s.drop gs) nm len2).mpr (Or.inr hpl2')
          have e2 := (headerMatchAt_iff (s.drop gs) ng lg).mpr hg
          rw [e1] at e2
          exact (Prod.mk.injEq _ _ _ _ |>.mp (Option.some.inj e2)).1
      · have hpl2' : PlainD (s.drop (pm + (8 + w0))) nm len2 := by
          have hdd : (s.drop pm).drop (8 + w0) = s.drop (pm + (8 + w0)) := by
            rw [List.drop_drop]
          rw [← hdd]
          exact hpl2
        exact (plainD_no_interior s (pm + (8 + w0)) nm len2 hpl2' gs
          (by omega) (by omega) hnl hgw).elim

/-- Scanning a character that is neither a quote nor a brace leaves the brace
loop's state unchanged. -/
theorem braceLoop_neutral_step (s : List Char) (start fuel i : Nat) (sc : Char)
    (c : Char) (hg : s.get? i = some c)
    (hneu : (c == '"' || c == '\'' || c == '{' || c == '}') = false) :
    braceLoop s start (fuel + 1) i 0 false sc =
      braceLoop s start fuel (i + 1) 0 false sc := by
  simp only [Bool.or_eq_false_iff] at hneu
  obtain ⟨⟨⟨h1, h2⟩, h3⟩, h4⟩ := hneu
  rw [braceLoop, hg]
  simp only
  have ht : braceToggle s i c false sc = (false, sc) := by
    rw [braceToggle, if_neg]
    rw [Bool.and_eq_true]
    rintro ⟨hq, _⟩
    rw [h1, h2] at hq
    cases hq
  rw [ht]
  simp only [Bool.not_false, if_pos rfl, h3, h4, Bool.false_eq_true, if_false]
  split <;> rfl

/-- Scanning a run of quote-and-brace-free characters leaves the loop state
unchanged and advances position and fuel in lock step. -/
theorem braceLoop_neutral_steps (s : List Char) (start : Nat) (sc : Char) (m : Nat) :
    ∀ (fuel i : Nat), m ≤ fuel →
      (∀ j, j < m → ∃ c, s.get? (i + j) = some c ∧
        (c == '"' || c == '\'' || c == '{' || c == '}') = false) →
      braceLoop s start fuel i 0 false sc =
        braceLoop s start (fuel - m) (i + m) 0 false sc := by
  induction m with
  | zero => simp
  | succ m0 ih =>
    intro fuel i hm hall
    obtain ⟨c, hc, hneu⟩ := hall 0 (by omega)
    rw [Nat.add_zero] at hc
    cases fuel with
    | zero => omega
    | succ f =>
      rw [braceLoop_neutral_step s start f i sc c hc hneu]
      rw [show f + 1 - (m0 + 1) = f - m0 by omega,
        show i + (m0 + 1) = i + 1 + m0 by omega]
      exact ih f (i + 1) (by omega) (fun j hj => by
        obtain ⟨c1, hc1, hn1⟩ := hall (j + 1) (by omega)
        exact ⟨c1, by rw [show i + 1 + j = i + (j + 1) by omega]; exact hc1, hn1⟩)

/-- Scanning an opening brace at depth zero outside a string pushes the depth
to one. -/
theorem braceLoop_open_step (s : List Char) (start fuel i : Nat) (sc : Char)
    (hg : s.get? i = some '{') :
    braceLoop s start (fuel + 1) i 0 false sc =
      braceLoop s start fuel (i + 1) 1 false sc := by
  rw [braceLoop, hg]
  simp only
  have ht : braceToggle s i '{' false sc = (false, sc) := by
    rw [braceToggle, if_neg]
    rw [Bool.and_eq_true]
    rintro ⟨hq, _⟩
    cases hq
  rw [ht]
  simp only [Bool.not_false, if_pos rfl, if_pos rfl]
  rfl

/-- The extent of a header match lies inside the span found by the brace
search started at the same position. -/
theorem headerLen_le_brace (s : List Char) (p : Nat) (n : String) (len e : Nat)
    (hh : headerMatchAt (s.drop p) = some (n, len))
    (hb : findMatchingBrace s p = .ok e) : p + len ≤ e := by
  have hd := (headerMatchAt_iff _ _ _).mp hh
  have hchars := headerD_chars hd
  have hpos := headerD_pos hd
  have hneu : ∀ j, j < len - 1 → ∃ c, s.get? (p + j) = some c ∧
      (c == '"' || c == '\'' || c == '{' || c == '}') = false := by
    intro j hj
    obtain ⟨c, hc, hcl⟩ := hchars.1 j hj
    rw [get?_drop_idx] at hc
    exact ⟨c, hc, char_neutral hcl⟩
  have hbr : s.get? (p + (len - 1)) = some '{' := by
    have h2 := hchars.2
    rw [get?_drop_idx] at h2
    exact h2
  have hplen : p + (len - 1) < s.length := by
    by_contra hx
    push_neg at hx
    rw [List.get?_eq_none.mpr hx] at hbr
    cases hbr
  rw [findMatchingBrace] at hb
  rw [braceLoop_neutral_steps s p '"' (len - 1) (s.length + 1) p (by omega) hneu] at hb
  cases hfr : s.length + 1 - (len - 1) with
  | zero => omega
  | succ f2 =>
    rw [hfr, braceLoop_open_step s p f2 (p + (len - 1)) '"' hbr] at hb
    have hok := braceLoop_ok s p f2 (p + (len - 1) + 1) 1 false '"' e hb
    omega

/-- A non-initial line start has a newline just before it. -/
theorem lineStartB_newline {s : List Char} {p : Nat} (h : lineStartB s p = true)
    (h0 : p ≠ 0) : s.get? (p - 1) = some '\n' := by
  rw [lineStartB] at h
  simp only [Bool.or_eq_true, beq_iff_eq] at h
  rcases h with h1 | h1
  · exact absurd h1 h0
  · exact h1

/-- A newline just before a position makes it a line start. -/
theorem lineStartB_of_newline {s : List Char} {p : Nat} (h : s.get? (p - 1) = some '\n') :
    lineStartB s p = true := by
  rw [lineStartB, h]
  simp

/-- Characters of the spliced source before the replaced span are unchanged. -/
theorem splice_get?_before (s C : List Char) (rs re i : Nat) (hrs : rs ≤ s.length)
    (hi : i < rs) :
    (s.take rs ++ C ++ s.drop re).get? i = s.get? i := by
  rw [List.append_assoc]
  rw [List.get?_append (by rw [List.length_take]; omega)]
  exact List.get?_take hi

/-- Dropping past the replacement in the spliced source lands in the unchanged
suffix of the original source. -/
theorem splice_drop_after (s C : List Char) (rs re j : Nat) (hrs : rs ≤ s.length) :
    (s.take rs ++ C ++ s.drop re).drop (rs + C.length + j) = s.drop (re + j) := by
  have hlen : (s.take rs ++ C).length = rs + C.length := by
    rw [List.length_append, List.length_take]
    omega
  rw [show rs + C.length + j = (s.take rs ++ C).length + j by rw [hlen]]
  rw [List.drop_append, List.drop_drop]

/-- Characters of the spliced source after the replacement are the original
suffix characters. -/
theorem splice_get?_after (s C : List Char) (rs re j : Nat) (hrs : rs ≤ s.length) :
    (s.take rs ++ C ++ s.drop re).get? (rs + C.length + j) = s.get? (re + j) := by
  have h := congrArg (fun l => l.get? 0) (splice_drop_after s C rs re j hrs)
  simpa [get?_drop_idx] using h

/-- A successful `apply_patch` re-parses a source spliced at the patched
region's recorded span, and installs that parse. -/
theorem apply_patch_ok_struct (a : ShellArtifact) (p : Patch) (a' : ShellArtifact)
    (regR : ShellRegion) (hR : List.lookup p.region a.regions = some regR)
    (happly : a.apply_patch p = (.ok (), a')) :
    ∃ C, a'.path = a.path ∧
      a'.source = a.source.take regR.start ++ C ++ a.source.drop regR.stop ∧
      parseFunctions a.path a'.source = .ok (a'.regions, a'.region_order) := by
  unfold ShellArtifact.apply_patch at happly
  rw [hR] at happly
  simp only at happly
  split at happly
  · exact absurd (congrArg Prod.fst happly) (by simp)
  · rename_i m2 o2 heq
    have ha2 := congrArg Prod.snd happly
    simp only at ha2
    refine ⟨match p.op with
      | PatchOp.Replace content => content
      | PatchOp.Delete => []
      | PatchOp.InsertAfter content =>
          (a.source.drop regR.start).take (regR.stop - regR.start) ++ '\n' :: content,
      ?_, ?_, ?_⟩
    · rw [← ha2]
    · rw [← ha2]
    · rw [← ha2]
      exact heq

/-- If a position of a source is a line start where the header matcher succeeds,
some reported match of the scan captures exactly that header's name. -/
theorem scan_name_surfaces (s2 : List Char) (gpos : Nat) (nameG : String) (lenG : Nat)
    (hls : lineStartB s2 gpos = true)
    (hhm : headerMatchAt (s2.drop gpos) = some (nameG, lenG))
    (hlt : gpos < s2.length) :
    ∃ t2 ∈ scanMatches s2, t2.1 = nameG := by
  obtain ⟨t2, ht2, hcov1, hcov2⟩ := scanFromF_covers s2 (s2.length + 1) 0 gpos nameG lenG
    (by omega) (by omega) hls hhm hlt
  obtain ⟨hlt2, hls2, hhm2⟩ := scanMatches_sound s2 t2 ht2
  refine ⟨t2, ht2, ?_⟩
  rcases Nat.lt_or_ge t2.2.1 gpos with hlt3 | hge3
  · have hnl : s2.get? (gpos - 1) = some '\n' := lineStartB_newline hls (by omega)
    exact swallow s2 t2.2.1 gpos t2.1 nameG (t2.2.2 - t2.2.1) lenG
      ((headerMatchAt_iff _ _ _).mp hhm2) ((headerMatchAt_iff _ _ _).mp hhm)
      hlt3 (by omega) hnl
  · have heq : t2.2.1 = gpos := by omega
    rw [heq, hhm] at hhm2
    exact ((Prod.mk.injEq _ _ _ _ |>.mp (Option.some.inj hhm2)).1).symm

/-- The order list of a successful parse: the region ids of the regex matches,
in match order. -/
theorem parseFunctions_order (path : String) (s : List Char)
    (m : List (RegionId × ShellRegion)) (o : List RegionId)
    (h : parseFunctions path s = .ok (m, o)) :
    o = (scanMatches s).map (fun t => regionId path t.1) := by
  simpa using buildRegions_order path s (scanMatches s) [] [] m o h

/-- Every binding of a successful parse comes from a regex match together with
its brace-search result; the id is derived from the path and the match name. -/
theorem parseFunctions_lookup (path : String) (s : List Char)
    (m : List (RegionId × ShellRegion)) (o : List RegionId)
    (h : parseFunctions path s = .ok (m, o)) (id : RegionId) (reg : ShellRegion)
    (hl : List.lookup id m = some reg) :
    ∃ t, t ∈ scanMatches s ∧ ∃ stop, findMatchingBrace s t.2.1 = .ok stop ∧
      id = regionId path t.1 ∧ reg = regionOfMatch s t stop := by
  rcases buildRegions_entries path s (scanMatches s) ([], []) m o h _ (lookup_mem hl)
    with hin | ⟨t, ht, stop, hstop, heq⟩
  · simp at hin
  · obtain ⟨h1, h2⟩ := Prod.mk.injEq _ _ _ _ |>.mp heq
    exact ⟨t, ht, stop, hstop, h1, h2⟩

/-- Every region recorded in a well-formed artifact has its span bounded by the
source, with the brace search confirming the span end. -/
theorem wfRegionBounds (a : ShellArtifact) (hwf : Wf a) (id : RegionId)
    (reg : ShellRegion) (hl : List.lookup id a.regions = some reg) :
    reg.start < reg.stop ∧ reg.stop ≤ a.source.length ∧
      findMatchingBrace a.source reg.start = .ok reg.stop := by
  obtain ⟨t, ht, stop, hstop, hid, hreg⟩ := parseFunctions_lookup _ _ _ _ hwf id reg hl
  subst hreg
  have hb := findMatchingBrace_ok _ _ _ hstop
  exact ⟨hb.1, hb.2.1, hstop⟩

/-- Claim C3 amended: after a successful `apply_patch`, the id of every region
whose recorded span is disjoint from the patched region's recorded span is
still present in `region_ids()` (regions nested inside or overlapping the
patched span may disappear, as the counterexample shows). -/
theorem C3_amended_disjoint_ids_stable (a : ShellArtifact) (hwf : Wf a) (p : Patch)
    (a' : ShellArtifact) (happly : a.apply_patch p = (.ok (), a'))
    (regR : ShellRegion) (hR : List.lookup p.region a.regions = some regR)
    (gid : RegionId) (regG : ShellRegion) (hG : List.lookup gid a.regions = some regG)
    (hdisj : regG.stop ≤ regR.start ∨ regR.stop ≤ regG.start) :
    gid ∈ a'.region_ids := by
  obtain ⟨C, hpath, hsrc, hparse⟩ := apply_patch_ok_struct a p a' regR hR happly
  obtain ⟨tR, htR, stopR, hstopR, hidR, hregR⟩ := parseFunctions_lookup _ _ _ _ hwf _ _ hR
  obtain ⟨tG, htG, stopG, hstopG, hidG, hregG⟩ := parseFunctions_lookup _ _ _ _ hwf _ _ hG
  have hRs : regR.start = tR.2.1 := by rw [hregR]; rfl
  have hRe : regR.stop = stopR := by rw [hregR]; rfl
  have hGs : regG.start = tG.2.1 := by rw [hregG]; rfl
  have hGe : regG.stop = stopG := by rw [hregG]; rfl
  rw [hGe, hGs] at hdisj
  obtain ⟨hGlt, hGls, hGhm⟩ := scanMatches_sound _ _ htG
  have hbG := findMatchingBrace_ok _ _ _ hstopG
  have hbR := findMatchingBrace_ok _ _ _ hstopR
  rw [← hRs, ← hRe] at hbR
  have hlenG := headerLen_le_brace a.source tG.2.1 tG.1 (tG.2.2 - tG.2.1) stopG hGhm hstopG
  have horder := parseFunctions_order a.path a'.source a'.regions a'.region_order hparse
  have hsurf : ∃ t2 ∈ scanMatches a'.source, t2.1 = tG.1 := by
    rcases hdisj with hbefore | hafter
    · -- g lies before the patched span
      have hsame : ∀ i, i < regR.start → a'.source.get? i = a.source.get? i := by
        intro i hi
        rw [hsrc]
        exact splice_get?_before _ _ _ _ _ (by omega) hi
      have hagree : ∀ i, i < tG.2.2 - tG.2.1 →
          (a.source.drop tG.2.1).get? i = (a'.source.drop tG.2.1).get? i := by
        intro i hi
        rw [get?_drop_idx, get?_drop_idx]
        exact (hsame (tG.2.1 + i) (by omega)).symm
      have hhm2 : headerMatchAt (a'.source.drop tG.2.1) = some (tG.1, tG.2.2 - tG.2.1) := by
        rw [headerMatchAt_iff]
        exact headerD_mono hagree ((headerMatchAt_iff _ _ _).mp hGhm)
      have hls2 : lineStartB a'.source tG.2.1 = true := by
        by_cases h0 : tG.2.1 = 0
        · rw [lineStartB, h0]
          simp
        · refine lineStartB_of_newline ?_
          rw [hsame (tG.2.1 - 1) (by omega)]
          exact lineStartB_newline hGls h0
      have hlt2 : tG.2.1 < a'.source.length := by
        have hch : a'.source.get? tG.2.1 = a.source.get? tG.2.1 :=
          hsame tG.2.1 (by omega)
        obtain ⟨c, hc, _⟩ := headerD_head ((headerMatchAt_iff _ _ _).mp hGhm)
        rw [get?_drop_idx, Nat.add_zero] at hc
        rw [hc] at hch
        by_contra hx
        push_neg at hx
        rw [List.get?_eq_none.mpr hx] at hch
        cases hch
      exact scan_name_surfaces a'.source tG.2.1 tG.1 (tG.2.2 - tG.2.1) hls2 hhm2 hlt2
    · -- g lies after the patched span
      have hre1 : a.source.get? (regR.stop - 1) = some '}' := hbR.2.2
      have hgsgt : regR.stop < tG.2.1 := by
        rcases Nat.lt_or_ge regR.stop tG.2.1 with h | h
        · exact h
        · have hgs : tG.2.1 = regR.stop := by omega
          have h0 : tG.2.1 ≠ 0 := by omega
          have hnl := lineStartB_newline hGls h0
          rw [hgs] at hnl
          rw [hre1] at hnl
          cases hnl
      set gpos := regR.start + C.length + (tG.2.1 - regR.stop) with hgposd
      have hdropEq : a'.source.drop gpos = a.source.drop tG.2.1 := by
        rw [hsrc, hgposd]
        have := splice_drop_after a.source C regR.start regR.stop (tG.2.1 - regR.stop)
          (by omega)
        rw [this]
        congr 1
        omega
      have hhm2 : headerMatchAt (a'.source.drop gpos) = some (tG.1, tG.2.2 - tG.2.1) := by
        rw [hdropEq]
        exact hGhm
      have hls2 : lineStartB a'.source gpos = true := by
        refine lineStartB_of_newline ?_
        have hj : gpos - 1 = regR.start + C.length + (tG.2.1 - regR.stop - 1) := by
          rw [hgposd]
          omega
        rw [hj, hsrc]
        have := splice_get?_after a.source C regR.start regR.stop (tG.2.1 - regR.stop - 1)
          (by omega)
        rw [this]
        have hidx : regR.stop + (tG.2.1 - regR.stop - 1) = tG.2.1 - 1 := by omega
        rw [hidx]
        exact lineStartB_newline hGls (by omega)
      have hlt2 : gpos < a'.source.length := by
        obtain ⟨c, hc, _⟩ := headerD_head ((headerMatchAt_iff _ _ _).mp hGhm)
        have hch : a'.source.get? gpos = some c := by
          have h2 := congrArg (fun l => l.get? 0) hdropEq
          simp only [get?_drop_idx, Nat.add_zero] at h2
          rw [get?_drop_idx, Nat.add_zero] at hc
          rw [h2, hc]
        by_contra hx
        push_neg at hx
        rw [List.get?_eq_none.mpr hx] at hch
        cases hch
      exact scan_name_surfaces a'.source gpos tG.1 (tG.2.2 - tG.2.1) hls2 hhm2 hlt2
  obtain ⟨t2, ht2, hname2⟩ := hsurf
  rw [ShellArtifact.region_ids, horder, hidG]
  refine List.mem_map.mpr ⟨t2, ht2, ?_⟩
  rw [hname2]

/-- Claim C3 counterexample: on the nested fixture, `apply_patch` of region `f`
with a flattened body returns `Ok`, yet the id of region `g` — distinct from
the patched id and present in `region_ids()` before the call — is gone
afterwards, because `g`'s span was nested inside the patched span and the
replacement erased its definition. -/
theorem C3_counterexample_nested_id_lost :
    (artNested.apply_patch flattenPatch).1 = .ok () ∧
    gId ∈ artNested.region_ids ∧ gId ≠ fId ∧
    ¬ gId ∈ ((artNested.apply_patch flattenPatch).2).region_ids := by
  refine ⟨rfl, by decide, by decide, ?_⟩
  have h : ((artNested.apply_patch flattenPatch).2).region_ids = [fId] := rfl
  rw [h]
  decide

/-- Witness for the amended C3 theorem: on `artTwo`, patching `f` succeeds and
the id of the span-disjoint region `g` survives; every hypothesis is discharged
on this concrete input. -/
theorem C3_amended_disjoint_ids_stable_witness :
    Wf artTwo ∧
    artTwo.apply_patch tweakPatch = (.ok (), (artTwo.apply_patch tweakPatch).2) ∧
    List.lookup tweakPatch.region artTwo.regions
      = some ⟨"f", 0, 9, 1, 4, "function"⟩ ∧
    List.lookup gId artTwo.regions = some ⟨"g", 10, 19, 4, 7, "function"⟩ ∧
    gId ∈ ((artTwo.apply_patch tweakPatch).2).region_ids :=
  ⟨rfl, rfl, rfl, rfl,
    C3_amended_disjoint_ids_stable artTwo rfl tweakPatch
      (artTwo.apply_patch tweakPatch).2 rfl
      ⟨"f", 0, 9, 1, 4, "function"⟩ rfl gId ⟨"g", 10, 19, 4, 7, "function"⟩ rfl
      (Or.inr (by decide))⟩

/-- Claim C7: `from_source` is deterministic — two invocations on the same
`(path, source)` yield the same region id list in the same order — and each
region id is the pure function `regionId` (UUID v5 in the fixed namespace) of
the artifact path and the parsed function name, one per regex match in match
order. -/
theorem C7_from_source_deterministic_ids (path : String) (s : List Char)
    (a a' : ShellArtifact)
    (h : ShellArtifact.from_source path s = .ok a)
    (h' : ShellArtifact.from_source path s = .ok a') :
    a.region_ids = a'.region_ids ∧
      a.region_ids = (scanMatches s).map (fun t => regionId path t.1) := by
  have haa : a = a' := by rw [h] at h'; exact Except.ok.inj h'
  subst haa
  refine ⟨rfl, ?_⟩
  cases hp : parseFunctions path s with
  | error e =>
    simp only [ShellArtifact.from_source, hp] at h
    simp at h
  | ok pr =>
    obtain ⟨m, o⟩ := pr
    simp only [ShellArtifact.from_source, hp] at h
    have ha := Except.ok.inj h
    rw [ShellArtifact.region_ids, ← ha]
    exact parseFunctions_order path s m o hp

/-- Witness for C7 on a concrete one-function script. -/
theorem C7_from_source_deterministic_ids_witness :
    artGreet.region_ids = (scanMatches srcGreet).map (fun t => regionId "test.sh" t.1) :=
  (C7_from_source_deterministic_ids "test.sh" srcGreet artGreet artGreet rfl rfl).2

/-- Claim C8: `apply_patch` is atomic — whenever it returns an error (unknown
region id, or a re-parse failure such as an unmatched brace), the artifact's
source, region map and region order are exactly as before the call. -/
theorem C8_apply_patch_atomic (a : ShellArtifact) (p : Patch) (e : String)
    (h : (a.apply_patch p).1 = .error e) : (a.apply_patch p).2 = a := by
  unfold ShellArtifact.apply_patch at h ⊢
  cases hl : List.lookup p.region a.regions with
  | none => rfl
  | some region =>
    rw [hl] at h
    simp only at h ⊢
    split at h
    · rfl
    · simp at h

/-- Witness for C8: replacing `f` by an unbalanced body makes the re-parse fail
and leaves the artifact untouched. -/
theorem C8_apply_patch_atomic_witness :
    (artF.apply_patch ⟨fId, .Replace "f() \x7b".toList, "truncate", []⟩).2 = artF :=
  C8_apply_patch_atomic artF ⟨fId, .Replace "f() \x7b".toList, "truncate", []⟩
    "Unmatched brace starting at position 0" rfl

/-- Claim C4: an identity `Replace` (new content equal to the region's current
content) succeeds and leaves the whole artifact — source, region map and region
order — unchanged. -/
theorem C4_identity_replace (a : ShellArtifact) (hwf : Wf a) (id : RegionId)
    (reg : ShellRegion) (hl : List.lookup id a.regions = some reg)
    (rationale : String) (delta : List (String × ℚ)) :
    a.apply_patch ⟨id, .Replace ((a.source.drop reg.start).take (reg.stop - reg.start)),
      rationale, delta⟩ = (.ok (), a) := by
  have hb := wfRegionBounds a hwf id reg hl
  have hwp : parseFunctions a.path a.source = .ok (a.regions, a.region_order) := hwf
  unfold ShellArtifact.apply_patch
  rw [hl]
  simp only
  have hsplice : a.source.take reg.start ++
      ((a.source.drop reg.start).take (reg.stop - reg.start)) ++ a.source.drop reg.stop
      = a.source := by
    have hdd : a.source.drop reg.stop = (a.source.drop reg.start).drop (reg.stop - reg.start) := by
      rw [List.drop_drop]
      congr 1
      omega
    rw [List.append_assoc, hdd, List.take_append_drop, List.take_append_drop]
  rw [hsplice, hwp]

/-- Witness for C4 on a concrete one-function artifact. -/
theorem C4_identity_replace_witness :
    artF.apply_patch ⟨fId, .Replace ((artF.source.drop 0).take (9 - 0)), "noop", []⟩
      = (.ok (), artF) :=
  C4_identity_replace artF rfl fId ⟨"f", 0, 9, 1, 4, "function"⟩ rfl "noop" []

/-- Claim C9: two function definitions sharing a name map to the same region id,
the order list carries that id at both match positions, and `read_region`
returns the span of the occurrence parsed last (the later `HashMap::insert`
overwrites the earlier binding). -/
theorem C9_duplicate_names (path : String) (s : List Char)
    (m : List (RegionId × ShellRegion)) (o : List RegionId)
    (hp : parseFunctions path s = .ok (m, o))
    (i j : Nat) (n : String) (p1 e1 p2 e2 : Nat)
    (hi : (scanMatches s).get? i = some (n, p1, e1))
    (hj : (scanMatches s).get? j = some (n, p2, e2))
    (_hij : i < j)
    (hlast : lastMatchFor path (scanMatches s) (regionId path n) = some (n, p2, e2)) :
    o.get? i = some (regionId path n) ∧ o.get? j = some (regionId path n) ∧
      ∃ stop, findMatchingBrace s p2 = .ok stop ∧
        (ShellArtifact.mk path s m o).read_region (regionId path n) =
          .ok { id := regionId path n, kind := "function",
                content := (s.drop p2).take (stop - p2),
                metadata := [("name", .str n),
                             ("start_line", .num (linesCount (s.take p2) + 1)),
                             ("end_line", .num (linesCount (s.take stop) + 1))] } := by
  have horder := parseFunctions_order path s m o hp
  refine ⟨?_, ?_, ?_⟩
  · rw [horder, List.get?_map, hi]; rfl
  · rw [horder, List.get?_map, hj]; rfl
  · obtain ⟨stop, hstop, hlook⟩ :=
      buildRegions_lookup_last path s (scanMatches s) ([], []) m o hp _ _ hlast
    refine ⟨stop, hstop, ?_⟩
    unfold ShellArtifact.read_region
    rw [show (ShellArtifact.mk path s m o).regions = m from rfl, hlook]
    rfl

/-- Witness for C9 on a script defining `f` twice: both entries share `fId`, and
`read_region` reports the second span (bytes 10..19). -/
theorem C9_duplicate_names_witness :
    [fId, fId].get? 0 = some (regionId "test.sh" "f") ∧
      [fId, fId].get? 1 = some (regionId "test.sh" "f") ∧
      ∃ stop, findMatchingBrace srcDup 10 = .ok stop ∧
        (ShellArtifact.mk "test.sh" srcDup [(fId, ⟨"f", 10, 19, 4, 7, "function"⟩)]
            [fId, fId]).read_region (regionId "test.sh" "f") =
          .ok { id := regionId "test.sh" "f", kind := "function",
                content := (srcDup.drop 10).take (stop - 10),
                metadata := [("name", .str "f"),
                             ("start_line", .num (linesCount (srcDup.take 10) + 1)),
                             ("end_line", .num (linesCount (srcDup.take stop) + 1))] } :=
  C9_duplicate_names "test.sh" srcDup [(fId, ⟨"f", 10, 19, 4, 7, "function"⟩)] [fId, fId]
    rfl 0 1 "f" 0 5 10 15 rfl rfl (by omega) rfl

end LatinExp
